import Mathlib

/-!
Verification of the caronte repository against its natural-language
specification.

The development shallowly embeds the relevant source code:

* the frontend validators of `src/frontend/src/validation.js`
  (`isValidPort`, `isValidAddress`) together with `validateSettings`
  of the setup view;
* the Connections view state update `loadConnections` of
  `src/frontend/src/views/Connections.js`;
* the Go stream reader `GetConnectionPayload` and its helper
  `findMatchesBetween` of `connection_streams_controller.go`
  (embedded in `src/frontend/src/validation.js` after the separator).

Machine integers of the Go code are modelled as `Nat` with an explicit
`% 2^64` at every addition that can overflow a `uint64`.  External
collaborators (the application-protocol parser family and the byte
format decoder) are passed in as function parameters, matching the
specification, which declares them out of scope.
-/

namespace Caronte

/-! ## Frontend validators, from `src/frontend/src/validation.js` -/

/-- Model of the JavaScript `parseInt(s, 10)`: leading whitespace is
trimmed, an optional sign is consumed, then the longest leading digit
run is parsed; `none` models `NaN` (no leading digit). -/
def parseDigits : List Char → Nat → Nat
  | [], acc => acc
  | c :: cs, acc => if c.isDigit then parseDigits cs (acc * 10 + (c.toNat - 48)) else acc

/-- Whether the list starts with a decimal digit. -/
def startsWithDigit : List Char → Bool
  | [] => false
  | c :: _ => c.isDigit

/-- JavaScript `parseInt(s, 10)`; `none` is `NaN`. -/
def parseIntJS (s : String) : Option Int :=
  match s.toList.dropWhile Char.isWhitespace with
  | '-' :: rest => if startsWithDigit rest then some (-(parseDigits rest 0 : Int)) else none
  | '+' :: rest => if startsWithDigit rest then some ((parseDigits rest 0 : Int)) else none
  | cs => if startsWithDigit cs then some ((parseDigits cs 0 : Int)) else none

/-- Source: `isValidPort: (port, required) => parseInt(port, 10) >
(required ? 0 : -1) && parseInt(port, 10) <= 65565`.  Comparisons with
`NaN` are false in JavaScript, hence the `none` case. -/
def isValidPort (port : String) (required : Bool) : Bool :=
  match parseIntJS port with
  | none => false
  | some p => decide (p > (if required then (0 : Int) else -1)) && decide (p ≤ 65565)

/-- Source: `isValidAddress: (address) => true // TODO`. -/
def isValidAddress (_address : String) : Bool :=
  true

/-- The fields of the setup form consulted by `validateSettings`. -/
structure SettingsConfig where
  server_address : String
  flag_regex : String

/-- Source: `validateSettings` of the setup view (`src/unnamed/part_001`):
`valid` starts `true`, is cleared when `isValidAddress` rejects the
server address or when `flag_regex.length < 8`; `saveSettings` submits
exactly when the result is `true`. -/
def validateSettings (settings : SettingsConfig) : Bool :=
  (isValidAddress settings.server_address) && !(settings.flag_regex.length < 8)

/-! ## Connections view, from `src/frontend/src/views/Connections.js`

A connection row is abstracted to its identifier; `loadConnections`
only moves rows around and reads nothing else of them. -/

/-- A connection row, abstracted to its id. -/
abbrev ConnRow := Nat

/-- The slice of the component state read and written by
`loadConnections`. -/
structure ConnViewState where
  connections : List ConnRow
  firstConnection : Option ConnRow
  lastConnection : Option ConnRow
deriving Repr, DecidableEq

/-- Source: `this.maxConnections = 500`. -/
def maxConnections : Nat := 500

/-- The pagination parameters of one `loadConnections` call: presence
of `params.from` and `params.to`. -/
structure LoadParams where
  fromId : Option ConnRow
  toId : Option ConnRow
deriving Repr, DecidableEq

/-- JavaScript `Array.prototype.slice(a, b)` on lists. -/
def jsSlice (l : List ConnRow) (a b : Nat) : List ConnRow :=
  (l.drop a).take (b - a)

/-- State update performed by one completed `loadConnections(params)`
call whose backend response body is `res`.  Mirrors the three branches
of the source: `params.from` present, `params.to` present, neither. -/
def loadConnections (st : ConnViewState) (params : LoadParams) (res : List ConnRow) :
    ConnViewState :=
  if params.fromId.isSome then
    if res.length > 0 then
      let connections := st.connections ++ res
      let lastConnection := connections.getLast?
      if connections.length > maxConnections then
        let connections2 := jsSlice connections (connections.length - maxConnections)
          (connections.length - 1)
        { connections := connections2, firstConnection := connections2.head?,
          lastConnection := lastConnection }
      else
        { st with connections := connections, lastConnection := lastConnection }
    else st
  else if params.toId.isSome then
    if res.length > 0 then
      let connections := res ++ st.connections
      let firstConnection := connections.head?
      if connections.length > maxConnections then
        let connections2 := jsSlice connections 0 maxConnections
        { connections := connections2, firstConnection := firstConnection,
          lastConnection := connections2[maxConnections - 1]? }
      else
        { st with connections := connections, firstConnection := firstConnection }
    else st
  else
    if res.length > 0 then
      { connections := res, firstConnection := res.head?, lastConnection := res.getLast? }
    else
      { connections := [], firstConnection := none, lastConnection := none }

/-! ## Stream reader, from `connection_streams_controller.go`

Bytes are `Nat`; timestamps are `Int` (the `UnixNano` value used by the
comparisons); `uint64` arithmetic is `Nat` with `% U64` at each
addition.  A persisted side is a list of `ConnectionStream` documents
indexed by `document_index`; `getConnectionStream` past the end of the
list yields the zero-ID document, modelled by `emptyStream`. -/

/-- Modulus of the Go `uint64` arithmetic. -/
def U64 : Nat := 18446744073709551616

/-- One persisted `ConnectionStream` document.  `patternMatches` keeps
the entries of the Go `map[uint][]PatternSlice` in the iteration order
a particular run observes. -/
structure ConnectionStream where
  payload : List Nat
  blocksIndexes : List Nat
  blocksTimestamps : List Int
  blocksLoss : List Bool
  patternMatches : List (Nat × List (Nat × Nat))
deriving Repr, DecidableEq

/-- The Go `RegexSlice` with fields `From` and `To`. -/
structure RegexSlice where
  rFrom : Nat
  rTo : Nat
deriving Repr, DecidableEq

/-- Result of the external parser family `parsers.Parse`; `none` is the
zero `Metadata` of a freshly allocated `Payload`. -/
abbrev Metadata := Option (List Nat)

/-- The Go `Payload` struct. -/
structure Payload where
  fromClient : Bool
  content : List Nat
  metadata : Metadata
  isMetadataContinuation : Bool
  index : Nat
  timestamp : Int
  isRetransmitted : Bool
  regexMatches : List RegexSlice
deriving Repr, DecidableEq

/-- Zero value of `Payload`, used only as the default of list reads
that are always in range. -/
def defaultPayload : Payload :=
  { fromClient := false, content := [], metadata := none, isMetadataContinuation := false,
    index := 0, timestamp := 0, isRetransmitted := false, regexMatches := [] }

instance : Inhabited Payload := ⟨defaultPayload⟩

/-- Source constant `DefaultQueryFormatLimit = 8024`. -/
def DefaultQueryFormatLimit : Nat := 8024

/-- The Go `QueryFormat` struct (`format`, `skip`, `limit`). -/
structure QueryFormat where
  format : String
  skip : Nat
  limit : Nat
deriving Repr, DecidableEq

/-- Source `findMatchesBetween(patternMatches, from, to)`: for each map
entry in iteration order, for each slice in order, skip the slice when
`from > slice[1] || to <= slice[0]`, otherwise clamp it to the block
and rebase it to block-relative offsets. -/
def findMatchesBetween (patternMatches : List (Nat × List (Nat × Nat))) (lo hi : Nat) :
    List RegexSlice :=
  patternMatches.flatMap (fun kv =>
    kv.2.filterMap (fun sl =>
      if lo > sl.2 ∨ hi ≤ sl.1 then none
      else
        let start := if lo > sl.1 then 0 else sl.1 - lo
        let stop := if hi ≤ sl.2 then hi - lo else sl.2 - lo
        some { rFrom := start, rTo := stop }))

/-- The zero-ID document returned by `getConnectionStream` when no
document with the requested `document_index` exists. -/
def emptyStream : ConnectionStream :=
  { payload := [], blocksIndexes := [], blocksTimestamps := [], blocksLoss := [],
    patternMatches := [] }

/-- The document of one side at a given `document_index`. -/
def getStream (docs : List ConnectionStream) (i : Nat) : ConnectionStream :=
  docs.getD i emptyStream

/-- Go `stream.ID.IsZero()`: the fetched document is the zero document
exactly when the requested index is past the persisted documents. -/
def streamZero (docs : List ConnectionStream) (i : Nat) : Bool :=
  decide (docs.length ≤ i)

/-- Go `hasClientBlocks` / `hasServerBlocks`: the block cursor is in
range of the current document. -/
def hasBlocks (docs : List ConnectionStream) (d blk : Nat) : Bool :=
  decide (blk < (getStream docs d).blocksIndexes.length)

/-- The mutable position of the merge loop: per side the document
index, block cursor and running side offset, plus the running global
offset (`clientDocumentIndex`, `clientBlocksIndex`, `clientIndex`, the
server counterparts and `globalIndex`). -/
structure Cursor where
  cDoc : Nat
  cBlk : Nat
  cIdx : Nat
  sDoc : Nat
  sBlk : Nat
  sIdx : Nat
  gIdx : Nat
deriving Repr, DecidableEq

/-- Initial cursor: all Go counters start at zero. -/
def initCursor : Cursor :=
  { cDoc := 0, cBlk := 0, cIdx := 0, sDoc := 0, sBlk := 0, sIdx := 0, gIdx := 0 }

/-- Everything the loop body derives from one emitted block before the
metadata bookkeeping: the payload fields, the raw (undecoded) block
bytes, the block size and the global offset just after the block. -/
structure SpecBlock where
  fromClient : Bool
  index : Nat
  timestamp : Int
  loss : Bool
  raw : List Nat
  regexMatches : List RegexSlice
  size : Nat
  endIdx : Nat
deriving Repr, DecidableEq

/-- Lines 148-157 of the source: after an emission, a side whose block
cursor ran off its current document advances to the next document and
resets its block cursor.  Both sides are checked every iteration. -/
def advanceDocs (cdocs sdocs : List ConnectionStream) (cur : Cursor) : Cursor :=
  let cur1 := if !(hasBlocks cdocs cur.cDoc cur.cBlk) then
    { cur with cDoc := cur.cDoc + 1, cBlk := 0 } else cur
  if !(hasBlocks sdocs cur1.sDoc cur1.sBlk) then
    { cur1 with sDoc := cur1.sDoc + 1, sBlk := 0 } else cur1

/-- Byte length of a block: distance to the next block start, or to the
end of the document payload for the last block (lines 100-106). -/
def blockSize (s : ConnectionStream) (blk : Nat) : Nat :=
  (if blk + 1 < s.blocksIndexes.length then s.blocksIndexes.getD (blk + 1) 0
    else s.payload.length) - s.blocksIndexes.getD blk 0

/-- The block a side emits at cursor position `blk`, given the side
offset `sideIdx` and global offset `gIdx` before the block. -/
def blockOf (s : ConnectionStream) (blk sideIdx gIdx : Nat) (fromCl : Bool) : SpecBlock :=
  let start := s.blocksIndexes.getD blk 0
  let size := blockSize s blk
  { fromClient := fromCl, index := start,
    timestamp := s.blocksTimestamps.getD blk 0,
    loss := s.blocksLoss.getD blk false,
    raw := (s.payload.drop start).take size,
    regexMatches := findMatchesBetween s.patternMatches sideIdx ((sideIdx + size) % U64),
    size := size, endIdx := (gIdx + size) % U64 }

/-- The Go condition selecting the client branch:
`hasClientBlocks() && (!hasServerBlocks() || clientTS <= serverTS)`,
the tie on equal timestamps going to the client. -/
def takeClientCond (cdocs sdocs : List ConnectionStream) (cur : Cursor) : Bool :=
  hasBlocks cdocs cur.cDoc cur.cBlk &&
    (!(hasBlocks sdocs cur.sDoc cur.sBlk) ||
      decide ((getStream cdocs cur.cDoc).blocksTimestamps.getD cur.cBlk 0 ≤
        (getStream sdocs cur.sDoc).blocksTimestamps.getD cur.sBlk 0))

/-- Cursor counters after a client emission (lines 116-118). -/
def clientMid (cdocs : List ConnectionStream) (cur : Cursor) : Cursor :=
  { cur with cIdx := (cur.cIdx + blockSize (getStream cdocs cur.cDoc) cur.cBlk) % U64,
             gIdx := (cur.gIdx + blockSize (getStream cdocs cur.cDoc) cur.cBlk) % U64,
             cBlk := cur.cBlk + 1 }

/-- Cursor counters after a server emission (lines 140-142). -/
def serverMid (sdocs : List ConnectionStream) (cur : Cursor) : Cursor :=
  { cur with sIdx := (cur.sIdx + blockSize (getStream sdocs cur.sDoc) cur.sBlk) % U64,
             gIdx := (cur.gIdx + blockSize (getStream sdocs cur.sDoc) cur.sBlk) % U64,
             sBlk := cur.sBlk + 1 }

/-- One iteration of the merge loop as far as the cursor is concerned:
`none` when the loop condition `!clientStream.ID.IsZero() ||
!serverStream.ID.IsZero()` fails, otherwise the emitted block together
with the advanced cursor. -/
def cursorStep (cdocs sdocs : List ConnectionStream) (cur : Cursor) :
    Option (SpecBlock × Cursor) :=
  if !(streamZero cdocs cur.cDoc) || !(streamZero sdocs cur.sDoc) then
    if takeClientCond cdocs sdocs cur then
      some (blockOf (getStream cdocs cur.cDoc) cur.cBlk cur.cIdx cur.gIdx true,
        advanceDocs cdocs sdocs (clientMid cdocs cur))
    else
      some (blockOf (getStream sdocs cur.sDoc) cur.sBlk cur.sIdx cur.gIdx false,
        advanceDocs cdocs sdocs (serverMid sdocs cur))
  else none

/-- The sequence of blocks the merge traverses from a cursor, driven by
`cursorStep`; `fuel` dominates the number of remaining iterations. -/
def emitSeq (cdocs sdocs : List ConnectionStream) : Nat → Cursor → List SpecBlock
  | 0, _ => []
  | fuel + 1, cur =>
    match cursorStep cdocs sdocs cur with
    | none => []
    | some (b, cur1) => b :: emitSeq cdocs sdocs fuel cur1

/-- Number of blocks over all documents of one side. -/
def totalBlocks (docs : List ConnectionStream) : Nat :=
  (docs.map (fun s => s.blocksIndexes.length)).sum

/-- Fuel sufficient for the merge to run to completion. -/
def readerFuel (cdocs sdocs : List ConnectionStream) : Nat :=
  totalBlocks cdocs + cdocs.length + totalBlocks sdocs + sdocs.length + 1

/-- The full merged block sequence of a connection. -/
def mergedBlocks (cdocs sdocs : List ConnectionStream) : List SpecBlock :=
  emitSeq cdocs sdocs (readerFuel cdocs sdocs) initCursor

/-- The `Payload` allocated for a block (lines 108-115 and 132-139):
content is the block slice passed through the external format decoder,
metadata fields are zero until a flush assigns them. -/
def blockPayload (decode : String → List Nat → List Nat) (fmt : String) (b : SpecBlock) :
    Payload :=
  { fromClient := b.fromClient, content := decode fmt b.raw, metadata := none,
    isMetadataContinuation := false, index := b.index, timestamp := b.timestamp,
    isRetransmitted := b.loss, regexMatches := b.regexMatches }

/-- Assignment performed on one buffered payload by `updateMetadata`. -/
def setMeta (m : Metadata) (cont : Bool) (p : Payload) : Payload :=
  { p with metadata := m, isMetadataContinuation := cont }

/-- Replace the element at a position of the arena. -/
def modifyAt (f : Payload → Payload) : Nat → List Payload → List Payload
  | _, [] => []
  | 0, p :: ps => f p :: ps
  | n + 1, p :: ps => p :: modifyAt f n ps

/-- The loop of `updateMetadata`: every buffered payload receives the
parsed metadata; `isMetadataContinuation` is false on the first
buffered payload and true on all later ones. -/
def applyMeta (m : Metadata) : List Nat → Bool → List Payload → List Payload
  | [], _, arena => arena
  | pos :: rest, cont, arena => applyMeta m rest true (modifyAt (setMeta m cont) pos arena)

/-- State of the loop besides the cursor.  Go mutates payloads through
pointers shared between `payloadsBuffer` and `payloads`; the model
keeps every allocated payload in an `arena` and lets `buffer` and
`out` hold arena positions, so a later metadata flush reaches payloads
already scheduled for output. -/
structure ReaderState where
  cursor : Cursor
  arena : List Payload
  buffer : List Nat
  chunk : List Nat
  out : List Nat
  lastClient : Bool
  lastServer : Bool
deriving Repr, DecidableEq

/-- Initial reader state. -/
def initReaderState : ReaderState :=
  { cursor := initCursor, arena := [], buffer := [], chunk := [], out := [],
    lastClient := false, lastServer := false }

/-- Source `updateMetadata()`: parse the chunk buffer, assign metadata
and continuation flags to the buffered payloads, then reset the buffer
and the chunk. -/
def flushMeta (parse : List Nat → Metadata) (st : ReaderState) : ReaderState :=
  { st with arena := applyMeta (parse st.chunk) st.buffer false st.arena,
            buffer := [], chunk := [] }

/-- The returned `payloads` slice: the scheduled arena positions read
out of the final arena. -/
def render (st : ReaderState) : List Payload :=
  st.out.map (fun i => st.arena.getD i defaultPayload)

/-- Lines 172-174 of the source: when the emitted block's side differs
from the previous one (`sideChanged`), the previous run is flushed. -/
def iterSideFlush (parse : List Nat → Metadata) (st : ReaderState) (b : SpecBlock) :
    ReaderState :=
  if (if b.fromClient then st.lastServer else st.lastClient) then flushMeta parse st else st

/-- Lines 175-176 of the source: the fresh payload joins the buffer and
its raw bytes the chunk; the `lastClient`/`lastServer` flags were set
during the emission (lines 121 and 145). -/
def iterAppend (decode : String → List Nat → List Nat) (fmt : String) (b : SpecBlock)
    (cur1 : Cursor) (st1 : ReaderState) : ReaderState :=
  { cursor := cur1, arena := st1.arena ++ [blockPayload decode fmt b],
    buffer := st1.buffer ++ [st1.arena.length], chunk := st1.chunk ++ b.raw,
    out := st1.out, lastClient := b.fromClient, lastServer := !b.fromClient }

/-- Lines 178-180 of the source: flush when both streams just became
zero. -/
def iterZeroFlush (cdocs sdocs : List ConnectionStream) (parse : List Nat → Metadata)
    (st2 : ReaderState) : ReaderState :=
  if streamZero cdocs st2.cursor.cDoc && streamZero sdocs st2.cursor.sDoc then
    flushMeta parse st2 else st2

/-- Lines 182-185 of the source: the payload at arena position `pos` is
scheduled for output when `globalIndex > skip`. -/
def iterOut (skip : Nat) (b : SpecBlock) (pos : Nat) (st3 : ReaderState) : ReaderState :=
  { st3 with out := if skip < b.endIdx then st3.out ++ [pos] else st3.out }

/-- Lines 159-185 of the source for one emitted block `b` with cursor
`cur1` after the emission: flush when the side changed, append the new
payload to the buffer and its raw bytes to the chunk, flush when both
streams just became zero, and schedule the payload for output when
`globalIndex > skip`. -/
def readerIter (cdocs sdocs : List ConnectionStream) (parse : List Nat → Metadata)
    (decode : String → List Nat → List Nat) (fmt : String) (skip : Nat)
    (st : ReaderState) (b : SpecBlock) (cur1 : Cursor) : ReaderState :=
  let st1 := iterSideFlush parse st b
  iterOut skip b st1.arena.length
    (iterZeroFlush cdocs sdocs parse (iterAppend decode fmt b cur1 st1))

/-- The merge loop of `GetConnectionPayload` (lines 95-191).  Each
iteration takes a cursor step, performs the metadata bookkeeping of
`readerIter` in source order, and returns after a final flush when
`globalIndex > skip + limit`. -/
def readerLoop (cdocs sdocs : List ConnectionStream) (parse : List Nat → Metadata)
    (decode : String → List Nat → List Nat) (fmt : String) (skip lim : Nat) :
    Nat → ReaderState → List Payload
  | 0, st => render st
  | fuel + 1, st =>
    match cursorStep cdocs sdocs st.cursor with
    | none => render st
    | some (b, cur1) =>
      let st4 := readerIter cdocs sdocs parse decode fmt skip st b cur1
      if (skip + lim) % U64 < b.endIdx then render (flushMeta parse st4)
      else readerLoop cdocs sdocs parse decode fmt skip lim fuel st4

/-- Source `GetConnectionPayload`: a non-positive `limit` is replaced
by `DefaultQueryFormatLimit` before the merge runs. -/
def GetConnectionPayload (cdocs sdocs : List ConnectionStream) (parse : List Nat → Metadata)
    (decode : String → List Nat → List Nat) (format : QueryFormat) : List Payload :=
  let lim := if format.limit ≤ 0 then DefaultQueryFormatLimit else format.limit
  readerLoop cdocs sdocs parse decode format.format format.skip lim
    (readerFuel cdocs sdocs) initReaderState

/-! ## A functional description of the loop

The loop is re-expressed as: cut the merged block sequence after the
first block whose end exceeds `skip + limit`, group the cut sequence
into maximal same-side runs, give every payload of a run the metadata
parsed from the run's concatenated raw bytes (continuation flag false
on the first payload of the run), and keep the payloads of blocks
ending after `skip`.  The equivalence is proved below and every claim
about the reader is settled through it. -/

/-- Cut a block sequence directly after the first block whose end
offset exceeds `bound`. -/
def cutThrough (bound : Nat) : List SpecBlock → List SpecBlock
  | [] => []
  | b :: rest => if bound < b.endIdx then [b] else b :: cutThrough bound rest

/-- Pagination as the specification words it: drop blocks ending at or
before `skip`, keep later ones, stop right after the first block whose
end exceeds `bound`, that block included. -/
def emitWindow (skip bound : Nat) : List SpecBlock → List SpecBlock
  | [] => []
  | b :: rest =>
    let keep := if skip < b.endIdx then [b] else []
    if bound < b.endIdx then keep else keep ++ emitWindow skip bound rest

/-- Fold step grouping blocks into maximal same-side runs: `done` holds
the completed runs, the second component the currently open run. -/
def runSnoc (acc : List (List SpecBlock) × List SpecBlock) (b : SpecBlock) :
    List (List SpecBlock) × List SpecBlock :=
  match acc with
  | (done, []) => (done, [b])
  | (done, p :: ps) =>
    if p.fromClient == b.fromClient then (done, (p :: ps) ++ [b])
    else (done ++ [p :: ps], [b])

/-- Completed runs and open run of a block sequence. -/
def runsState (l : List SpecBlock) : List (List SpecBlock) × List SpecBlock :=
  l.foldl runSnoc ([], [])

/-- Maximal same-side runs of a block sequence, in order. -/
def runsOf (l : List SpecBlock) : List (List SpecBlock) :=
  match runsState l with
  | (done, []) => done
  | (done, pend) => done ++ [pend]

/-- Assign one metadata value to a payload list, continuation flag
`cont` on the head and `true` on the rest. -/
def flagPayloads (m : Metadata) : Bool → List Payload → List Payload
  | _, [] => []
  | cont, p :: ps => setMeta m cont p :: flagPayloads m true ps

/-- Metadata assignment of one completed run, as `updateMetadata`
leaves it: every payload of the run carries the metadata parsed from
the whole run's raw bytes, the first with continuation flag false, the
rest with true. -/
def flagRun (parse : List Nat → Metadata) (decode : String → List Nat → List Nat)
    (fmt : String) (run : List SpecBlock) : List Payload :=
  flagPayloads (parse (run.flatMap (fun b => b.raw))) false (run.map (blockPayload decode fmt))

/-- Flag the runs of an already-cut block sequence and keep the
payloads of blocks ending after `skip`. -/
def flagAndPick (parse : List Nat → Metadata) (decode : String → List Nat → List Nat)
    (fmt : String) (skip : Nat) (P : List SpecBlock) : List Payload :=
  ((((runsOf P).flatMap (flagRun parse decode fmt)).zip P).filter
    (fun pb => decide (skip < pb.2.endIdx))).map Prod.fst

/-- The functional form of the reader. -/
def assemble (parse : List Nat → Metadata) (decode : String → List Nat → List Nat)
    (fmt : String) (skip bound : Nat) (E : List SpecBlock) : List Payload :=
  flagAndPick parse decode fmt skip (cutThrough bound E)

/-! ## Termination measure and loop invariant -/

/-- Remaining work of one side: blocks left in the current document,
blocks of the later documents, and documents not yet passed. -/
def sideMeasure (docs : List ConnectionStream) (d blk : Nat) : Nat :=
  ((getStream docs d).blocksIndexes.length - blk) +
    (((docs.drop (d + 1)).map (fun s => s.blocksIndexes.length)).sum + (docs.length - d))

/-- Remaining work of a cursor; strictly decreased by `cursorStep`. -/
def curMeasure (cdocs sdocs : List ConnectionStream) (cur : Cursor) : Nat :=
  sideMeasure cdocs cur.cDoc cur.cBlk + sideMeasure sdocs cur.sDoc cur.sBlk

/-- Positions (counting from `k`) of the blocks a traversal schedules
for output: those whose end offset exceeds `skip`. -/
def outPos (skip : Nat) : Nat → List SpecBlock → List Nat
  | _, [] => []
  | k, b :: rest => (if skip < b.endIdx then [k] else []) ++ outPos skip (k + 1) rest

/-- Value of the Go `lastClient` flag after emitting the blocks `C`. -/
def lastClientOf (C : List SpecBlock) : Bool :=
  (C.getLast?.map (fun b => b.fromClient)).getD false

/-- Value of the Go `lastServer` flag after emitting the blocks `C`. -/
def lastServerOf (C : List SpecBlock) : Bool :=
  (C.getLast?.map (fun b => !b.fromClient)).getD false

/-- Invariant clauses independent of the metadata buffer. -/
def InvCore (skip : Nat) (C : List SpecBlock) (st : ReaderState) : Prop :=
  st.out = outPos skip 0 C ∧ st.lastClient = lastClientOf C ∧ st.lastServer = lastServerOf C

/-- Shape of the metadata state while the loop is running: completed
runs are flagged in the arena, the open run sits unflagged at the tail
of the arena, scheduled in `buffer`, its raw bytes in `chunk`. -/
def InvLive (parse : List Nat → Metadata) (decode : String → List Nat → List Nat)
    (fmt : String) (C : List SpecBlock) (st : ReaderState) : Prop :=
  st.arena = (runsState C).1.flatMap (flagRun parse decode fmt) ++
      (runsState C).2.map (blockPayload decode fmt) ∧
    st.buffer = List.range' (C.length - (runsState C).2.length) (runsState C).2.length ∧
    st.chunk = (runsState C).2.flatMap (fun b => b.raw)

/-- Shape of the metadata state after the final flush: every run of
`C` is flagged and the buffer is empty. -/
def InvDone (parse : List Nat → Metadata) (decode : String → List Nat → List Nat)
    (fmt : String) (C : List SpecBlock) (st : ReaderState) : Prop :=
  st.arena = (runsOf C).flatMap (flagRun parse decode fmt) ∧ st.buffer = [] ∧ st.chunk = []

/-- Full loop invariant: the live shape while more blocks remain, the
flushed shape once both streams are zero. -/
def ReaderInv (cdocs sdocs : List ConnectionStream) (parse : List Nat → Metadata)
    (decode : String → List Nat → List Nat) (fmt : String) (skip : Nat)
    (C : List SpecBlock) (st : ReaderState) : Prop :=
  InvCore skip C st ∧
    ((cursorStep cdocs sdocs st.cursor ≠ none ∧ InvLive parse decode fmt C st) ∨
      (cursorStep cdocs sdocs st.cursor = none ∧ InvDone parse decode fmt C st))

/-! ## Well-formedness of persisted streams

The specification's data-model invariants (section 8, items 1-2): the
block arrays are parallel and non-empty, `blocks_indexes` is strictly
increasing with all entries inside the payload, and, per side, the
concatenated block timestamps are non-decreasing. -/

/-- Data-model invariants of one persisted document. -/
def StreamWF (s : ConnectionStream) : Prop :=
  s.blocksIndexes ≠ [] ∧ List.Chain' (· < ·) s.blocksIndexes ∧
    (∀ i ∈ s.blocksIndexes, i < s.payload.length) ∧
    s.blocksTimestamps.length = s.blocksIndexes.length ∧
    s.blocksLoss.length = s.blocksIndexes.length

/-- Data-model invariants of one side: every document well-formed and
the concatenated timestamps non-decreasing. -/
def SideWF (docs : List ConnectionStream) : Prop :=
  (∀ s ∈ docs, StreamWF s) ∧
    List.Chain' (· ≤ ·) (docs.flatMap (fun s => s.blocksTimestamps))

/-- Entries of a per-document list not yet consumed by one side of a
cursor: the rest of the current document followed by the whole later
documents. -/
def remOf {α : Type} (g : ConnectionStream → List α) (docs : List ConnectionStream)
    (d blk : Nat) : List α :=
  ((g (getStream docs d)).drop blk) ++ ((docs.drop (d + 1)).flatMap g)

/-- Timestamps not yet consumed by one side of a cursor. -/
def remTs (docs : List ConnectionStream) (d blk : Nat) : List Int :=
  remOf (fun s => s.blocksTimestamps) docs d blk

/-- Block start offsets not yet consumed by one side of a cursor. -/
def remIdx (docs : List ConnectionStream) (d blk : Nat) : List Nat :=
  remOf (fun s => s.blocksIndexes) docs d blk

/-- A cursor position the loop can be at: per side, either the side is
exhausted or the block cursor is in range. -/
def CursorOk (cdocs sdocs : List ConnectionStream) (cur : Cursor) : Prop :=
  (streamZero cdocs cur.cDoc = true ∨ hasBlocks cdocs cur.cDoc cur.cBlk = true) ∧
    (streamZero sdocs cur.sDoc = true ∨ hasBlocks sdocs cur.sDoc cur.sBlk = true)

/-! ## Projections and equivalences used by the claims -/

/-- All payload fields except the metadata pair. -/
def payloadData (p : Payload) : Bool × List Nat × Nat × Int × Bool × List RegexSlice :=
  (p.fromClient, p.content, p.index, p.timestamp, p.isRetransmitted, p.regexMatches)

/-- The corresponding fields of a block. -/
def blockData (decode : String → List Nat → List Nat) (fmt : String) (b : SpecBlock) :
    Bool × List Nat × Nat × Int × Bool × List RegexSlice :=
  (b.fromClient, decode fmt b.raw, b.index, b.timestamp, b.loss, b.regexMatches)

/-- Timestamp and side of a payload. -/
def payloadTsSide (p : Payload) : Int × Bool := (p.timestamp, p.fromClient)

/-- Timestamp and side of a block. -/
def blockTsSide (b : SpecBlock) : Int × Bool := (b.timestamp, b.fromClient)

/-- Merge order on (timestamp, side) pairs: earlier timestamp first,
and on equal timestamps never a server entry before a client entry. -/
def tsSideLe (x y : Int × Bool) : Prop :=
  x.1 < y.1 ∨ (x.1 = y.1 ∧ (y.2 = true → x.2 = true))

/-- Two documents holding the same persisted data: equal except that
the pattern-match map may be iterated in a different order. -/
def StreamEquiv (s t : ConnectionStream) : Prop :=
  s.payload = t.payload ∧ s.blocksIndexes = t.blocksIndexes ∧
    s.blocksTimestamps = t.blocksTimestamps ∧ s.blocksLoss = t.blocksLoss ∧
    s.patternMatches.Perm t.patternMatches

/-- Two payloads equal except for the order inside `regex_matches`. -/
def PayloadEquiv (p q : Payload) : Prop :=
  p.fromClient = q.fromClient ∧ p.content = q.content ∧ p.metadata = q.metadata ∧
    p.isMetadataContinuation = q.isMetadataContinuation ∧ p.index = q.index ∧
    p.timestamp = q.timestamp ∧ p.isRetransmitted = q.isRetransmitted ∧
    p.regexMatches.Perm q.regexMatches

/-- Two blocks equal except for the order inside `regexMatches`. -/
def BlockEquiv (b c : SpecBlock) : Prop :=
  b.fromClient = c.fromClient ∧ b.index = c.index ∧ b.timestamp = c.timestamp ∧
    b.loss = c.loss ∧ b.raw = c.raw ∧ b.size = c.size ∧ b.endIdx = c.endIdx ∧
    b.regexMatches.Perm c.regexMatches

/-- A `Decidable` instance for `List.Chain` that the kernel can
evaluate (the library instance is built by tactics and does not
reduce). -/
def decideChain {α : Type} {R : α → α → Prop} (dR : DecidableRel R) :
    ∀ (a : α) (l : List α), Decidable (List.Chain R a l)
  | _, [] => isTrue List.Chain.nil
  | a, b :: l =>
    match dR a b with
    | isTrue hab =>
      match decideChain dR b l with
      | isTrue htl => isTrue (List.Chain.cons hab htl)
      | isFalse htl => isFalse (fun h => htl (by cases h; assumption))
    | isFalse hab => isFalse (fun h => hab (by cases h; assumption))

instance (priority := 2000) {α : Type} {R : α → α → Prop} [dR : DecidableRel R] (a : α)
    (l : List α) : Decidable (List.Chain R a l) := decideChain dR a l

instance (priority := 2000) {α : Type} {R : α → α → Prop} [dR : DecidableRel R] :
    ∀ (l : List α), Decidable (List.Chain' R l)
  | [] => isTrue trivial
  | a :: l => decideChain dR a l

instance (s : ConnectionStream) : Decidable (StreamWF s) :=
  inferInstanceAs (Decidable (s.blocksIndexes ≠ [] ∧
    List.Chain' (· < ·) s.blocksIndexes ∧
    (∀ i ∈ s.blocksIndexes, i < s.payload.length) ∧
    s.blocksTimestamps.length = s.blocksIndexes.length ∧
    s.blocksLoss.length = s.blocksIndexes.length))

instance (docs : List ConnectionStream) : Decidable (SideWF docs) :=
  inferInstanceAs (Decidable ((∀ s ∈ docs, StreamWF s) ∧
    List.Chain' (· ≤ ·) (docs.flatMap (fun s => s.blocksTimestamps))))

instance (x y : Int × Bool) : Decidable (tsSideLe x y) :=
  inferInstanceAs (Decidable (x.1 < y.1 ∨ (x.1 = y.1 ∧ (y.2 = true → x.2 = true))))

instance (s t : ConnectionStream) : Decidable (StreamEquiv s t) :=
  inferInstanceAs (Decidable (s.payload = t.payload ∧ s.blocksIndexes = t.blocksIndexes ∧
    s.blocksTimestamps = t.blocksTimestamps ∧ s.blocksLoss = t.blocksLoss ∧
    s.patternMatches.Perm t.patternMatches))

instance (p q : Payload) : Decidable (PayloadEquiv p q) :=
  inferInstanceAs (Decidable (p.fromClient = q.fromClient ∧ p.content = q.content ∧
    p.metadata = q.metadata ∧ p.isMetadataContinuation = q.isMetadataContinuation ∧
    p.index = q.index ∧ p.timestamp = q.timestamp ∧
    p.isRetransmitted = q.isRetransmitted ∧ p.regexMatches.Perm q.regexMatches))

instance (b c : SpecBlock) : Decidable (BlockEquiv b c) :=
  inferInstanceAs (Decidable (b.fromClient = c.fromClient ∧ b.index = c.index ∧
    b.timestamp = c.timestamp ∧ b.loss = c.loss ∧ b.raw = c.raw ∧ b.size = c.size ∧
    b.endIdx = c.endIdx ∧ b.regexMatches.Perm c.regexMatches))

/-- Zero block, default of head reads on runs, which are non-empty. -/
def defaultBlock : SpecBlock :=
  { fromClient := false, index := 0, timestamp := 0, loss := false, raw := [],
    regexMatches := [], size := 0, endIdx := 0 }

instance : Inhabited SpecBlock := ⟨defaultBlock⟩

/-- Side of a run of blocks. -/
def runSide (run : List SpecBlock) : Bool :=
  (run.headD defaultBlock).fromClient

/-- The sizes of the blocks of one document, in block order. -/
def blockSizes (s : ConnectionStream) : List Nat :=
  (List.range s.blocksIndexes.length).map (blockSize s)

/-- Total number of block bytes of one side, as the reader measures
them. -/
def totalSizes (docs : List ConnectionStream) : Nat :=
  (docs.map (fun s => (blockSizes s).sum)).sum

/-- Block sizes not yet consumed by one side of a cursor. -/
def remSz (docs : List ConnectionStream) (d blk : Nat) : List Nat :=
  remOf blockSizes docs d blk

/-! ## Lemmas about run grouping -/

theorem runsState_snoc (C : List SpecBlock) (b : SpecBlock) :
    runsState (C ++ [b]) = runSnoc (runsState C) b := by
  simp [runsState, List.foldl_append]

theorem runsState_nil : runsState [] = ([], []) := rfl

theorem runsState_pend_nil_iff (C : List SpecBlock) :
    (runsState C).2 = [] ↔ C = [] := by
  induction C using List.reverseRecOn with
  | nil => simp [runsState_nil]
  | append_singleton C b _ =>
    rw [runsState_snoc]
    rcases runsState C with ⟨done, pend⟩
    cases pend with
    | nil => simp [runSnoc]
    | cons p ps =>
      simp only [runSnoc]
      split <;> simp

theorem runsState_join (C : List SpecBlock) :
    (runsState C).1.flatMap id ++ (runsState C).2 = C := by
  induction C using List.reverseRecOn with
  | nil => simp [runsState_nil]
  | append_singleton C b ih =>
    rw [runsState_snoc]
    rcases h : runsState C with ⟨done, pend⟩
    rw [h] at ih
    cases pend with
    | nil =>
      simp only [runSnoc]
      simpa using ih
    | cons p ps =>
      simp only [runSnoc]
      split
      · rw [← ih]; simp
      · rw [← ih]; simp [List.flatMap_append]

theorem lastClientOf_snoc (C : List SpecBlock) (b : SpecBlock) :
    lastClientOf (C ++ [b]) = b.fromClient := by
  simp [lastClientOf, List.getLast?_concat]

theorem lastServerOf_snoc (C : List SpecBlock) (b : SpecBlock) :
    lastServerOf (C ++ [b]) = !b.fromClient := by
  simp [lastServerOf, List.getLast?_concat]

theorem runsState_pend_side (C : List SpecBlock) :
    ∀ x ∈ (runsState C).2, x.fromClient = lastClientOf C := by
  induction C using List.reverseRecOn with
  | nil => simp [runsState_nil]
  | append_singleton C b ih =>
    rw [runsState_snoc, lastClientOf_snoc]
    rcases h : runsState C with ⟨done, pend⟩
    rw [h] at ih
    cases pend with
    | nil => simp [runSnoc]
    | cons p ps =>
      simp only [runSnoc]
      split
      next hside =>
        have hpb : p.fromClient = b.fromClient := by simpa using hside
        have hlast : lastClientOf C = p.fromClient := (ih p (List.mem_cons_self p ps)).symm
        intro x hx
        rcases List.mem_cons.mp hx with rfl | hx2
        · exact hpb
        · rcases List.mem_append.mp hx2 with hx3 | hx3
          · have hxv := ih x (List.mem_cons_of_mem p hx3)
            rw [hxv, hlast, hpb]
          · have hxb : x = b := by simpa using hx3
            rw [hxb]
      next => simp

theorem runsOf_join (C : List SpecBlock) : (runsOf C).flatMap id = C := by
  have h := runsState_join C
  unfold runsOf
  rcases hr : runsState C with ⟨done, pend⟩
  rw [hr] at h
  cases pend with
  | nil => simpa using h
  | cons p ps => simpa [List.flatMap_append] using h

/-! ## Lemmas about metadata flagging -/

theorem flagPayloads_length (m : Metadata) :
    ∀ (cont : Bool) (l : List Payload), (flagPayloads m cont l).length = l.length := by
  intro cont l
  induction l generalizing cont with
  | nil => rfl
  | cons p ps ih => simp [flagPayloads, ih]

theorem flagRun_length (parse : List Nat → Metadata) (decode : String → List Nat → List Nat)
    (fmt : String) (run : List SpecBlock) :
    (flagRun parse decode fmt run).length = run.length := by
  simp [flagRun, flagPayloads_length]

theorem modifyAt_length (f : Payload → Payload) :
    ∀ (n : Nat) (l : List Payload), (modifyAt f n l).length = l.length := by
  intro n l
  induction l generalizing n with
  | nil => cases n <;> rfl
  | cons p ps ih => cases n with
    | zero => rfl
    | succ k => simp [modifyAt, ih]

theorem modifyAt_append (f : Payload → Payload) (A : List Payload) (p : Payload)
    (B : List Payload) : modifyAt f A.length (A ++ p :: B) = A ++ f p :: B := by
  induction A with
  | nil => rfl
  | cons q qs ih => simp [modifyAt, ih]

theorem applyMeta_nil (m : Metadata) (cont : Bool) (A : List Payload) :
    applyMeta m [] cont A = A := rfl

theorem applyMeta_length (m : Metadata) :
    ∀ (l : List Nat) (cont : Bool) (A : List Payload), (applyMeta m l cont A).length = A.length := by
  intro l
  induction l with
  | nil => intro cont A; rfl
  | cons pos rest ih =>
    intro cont A
    simp [applyMeta, ih, modifyAt_length]

theorem applyMeta_range' (m : Metadata) :
    ∀ (B A : List Payload) (cont : Bool),
      applyMeta m (List.range' A.length B.length) cont (A ++ B) =
        A ++ flagPayloads m cont B := by
  intro B
  induction B with
  | nil => intro A cont; simp [List.range', applyMeta, flagPayloads]
  | cons p B' ih =>
    intro A cont
    rw [List.length_cons, List.range'_succ]
    show applyMeta m (A.length :: List.range' (A.length + 1) B'.length) cont (A ++ p :: B') =
      A ++ flagPayloads m cont (p :: B')
    rw [show (applyMeta m (A.length :: List.range' (A.length + 1) B'.length) cont
        (A ++ p :: B')) = applyMeta m (List.range' (A.length + 1) B'.length) true
        (modifyAt (setMeta m cont) A.length (A ++ p :: B')) from rfl]
    rw [modifyAt_append]
    have h1 : A ++ setMeta m cont p :: B' = (A ++ [setMeta m cont p]) ++ B' := by
      simp
    have h2 : A.length + 1 = (A ++ [setMeta m cont p]).length := by simp
    rw [h1, h2, ih]
    simp [flagPayloads]

theorem payloadData_setMeta (m : Metadata) (cont : Bool) (p : Payload) :
    payloadData (setMeta m cont p) = payloadData p := rfl

theorem flagPayloads_map_payloadData (m : Metadata) :
    ∀ (cont : Bool) (l : List Payload),
      (flagPayloads m cont l).map payloadData = l.map payloadData := by
  intro cont l
  induction l generalizing cont with
  | nil => rfl
  | cons p ps ih => simp [flagPayloads, ih, payloadData_setMeta]

theorem payloadData_blockPayload (decode : String → List Nat → List Nat) (fmt : String)
    (b : SpecBlock) : payloadData (blockPayload decode fmt b) = blockData decode fmt b := rfl

theorem flagRun_map_payloadData (parse : List Nat → Metadata)
    (decode : String → List Nat → List Nat) (fmt : String) (run : List SpecBlock) :
    (flagRun parse decode fmt run).map payloadData = run.map (blockData decode fmt) := by
  rw [flagRun, flagPayloads_map_payloadData]
  simp [payloadData_blockPayload]

theorem flagged_map_payloadData (parse : List Nat → Metadata)
    (decode : String → List Nat → List Nat) (fmt : String) (C : List SpecBlock) :
    ((runsOf C).flatMap (flagRun parse decode fmt)).map payloadData =
      C.map (blockData decode fmt) := by
  rw [List.map_flatMap]
  have h : ∀ r : List SpecBlock, (flagRun parse decode fmt r).map payloadData =
      (id r).map (blockData decode fmt) := fun r => flagRun_map_payloadData parse decode fmt r
  calc (runsOf C).flatMap (fun r => (flagRun parse decode fmt r).map payloadData)
      = (runsOf C).flatMap (fun r => (id r).map (blockData decode fmt)) := by
        exact List.flatMap_congr (fun r _ => h r)
    _ = ((runsOf C).flatMap id).map (blockData decode fmt) := by
        rw [List.map_flatMap]
    _ = C.map (blockData decode fmt) := by rw [runsOf_join]

theorem flagged_length (parse : List Nat → Metadata) (decode : String → List Nat → List Nat)
    (fmt : String) (C : List SpecBlock) :
    ((runsOf C).flatMap (flagRun parse decode fmt)).length = C.length := by
  have h := congrArg List.length (flagged_map_payloadData parse decode fmt C)
  simpa using h

/-! ## Lemmas about output positions -/

theorem outPos_snoc (skip : Nat) :
    ∀ (C : List SpecBlock) (k : Nat) (b : SpecBlock),
      outPos skip k (C ++ [b]) =
        outPos skip k C ++ (if skip < b.endIdx then [k + C.length] else []) := by
  intro C
  induction C with
  | nil => intro k b; simp [outPos]
  | cons c C' ih =>
    intro k b
    have he : k + 1 + C'.length = k + (C'.length + 1) := by omega
    simp only [List.cons_append, outPos, List.append_eq, ih, List.length_cons, he,
      List.append_assoc]

theorem getD_append_length (pre : List Payload) (p : Payload) (rest : List Payload) :
    (pre ++ p :: rest).getD pre.length defaultPayload = p := by
  induction pre with
  | nil => rfl
  | cons q qs ih => simpa [List.getD] using ih

theorem outPos_render (skip : Nat) :
    ∀ (C : List SpecBlock) (arena pre : List Payload), arena.length = C.length →
      (outPos skip pre.length C).map (fun i => (pre ++ arena).getD i defaultPayload) =
        ((arena.zip C).filter (fun pb => decide (skip < pb.2.endIdx))).map Prod.fst := by
  intro C
  induction C with
  | nil =>
    intro arena pre h
    have : arena = [] := List.length_eq_zero.mp h
    simp [this, outPos]
  | cons b C' ih =>
    intro arena pre h
    cases arena with
    | nil => simp at h
    | cons p arena' =>
      have h' : arena'.length = C'.length := by simpa using h
      have hmain := ih arena' (pre ++ [p]) h'
      have hlen : (pre ++ [p]).length = pre.length + 1 := by simp
      have hassoc : (pre ++ [p]) ++ arena' = pre ++ p :: arena' := by simp
      rw [hlen, hassoc] at hmain
      show ((if skip < b.endIdx then [pre.length] else []) ++
          outPos skip (pre.length + 1) C').map
          (fun i => (pre ++ p :: arena').getD i defaultPayload) = _
      rw [List.map_append, hmain]
      by_cases hc : skip < b.endIdx
      · simp only [if_pos hc, List.map_cons, List.map_nil]
        rw [getD_append_length]
        simp [List.zip_cons_cons, List.filter_cons, hc]
      · simp [if_neg hc, List.zip_cons_cons, List.filter_cons, hc]

/-! ## Lemmas about the cursor step and the termination measure -/

theorem cursorStep_eq_none_iff (cdocs sdocs : List ConnectionStream) (cur : Cursor) :
    cursorStep cdocs sdocs cur = none ↔
      (streamZero cdocs cur.cDoc && streamZero sdocs cur.sDoc) = true := by
  cases hc : streamZero cdocs cur.cDoc <;> cases hs : streamZero sdocs cur.sDoc <;>
    simp only [cursorStep, hc, hs, Bool.not_false, Bool.not_true, Bool.false_or,
      Bool.or_false, Bool.true_or, Bool.or_self, Bool.false_and, Bool.true_and,
      if_true, if_false] <;>
    (try simp) <;> (try (split <;> simp))

theorem sum_drop_succ (docs : List ConnectionStream) (d : Nat) :
    ((docs.drop (d + 1)).map (fun s => s.blocksIndexes.length)).sum =
      (getStream docs (d + 1)).blocksIndexes.length +
        ((docs.drop (d + 2)).map (fun s => s.blocksIndexes.length)).sum := by
  by_cases h : d + 1 < docs.length
  · have hg : getStream docs (d + 1) = docs[d + 1] := by
      simp [getStream, List.getD_eq_getElem?_getD, List.getElem?_eq_getElem h]
    rw [List.drop_eq_getElem_cons h, List.map_cons, List.sum_cons, hg]
  · have h1 : docs.length ≤ d + 1 := by omega
    have hg : getStream docs (d + 1) = emptyStream := List.getD_eq_default _ _ h1
    rw [List.drop_eq_nil_of_le h1, List.drop_eq_nil_of_le (by omega : docs.length ≤ d + 2), hg]
    simp [emptyStream]

theorem sideMeasure_mono_blk (docs : List ConnectionStream) (d blk : Nat) :
    sideMeasure docs d (blk + 1) ≤ sideMeasure docs d blk := by
  unfold sideMeasure
  omega

theorem sideMeasure_consume (docs : List ConnectionStream) (d blk : Nat)
    (h : hasBlocks docs d blk = true) :
    sideMeasure docs d (blk + 1) < sideMeasure docs d blk := by
  have hlt : blk < (getStream docs d).blocksIndexes.length := by
    simpa [hasBlocks] using h
  unfold sideMeasure
  omega

theorem sideMeasure_advance_le (docs : List ConnectionStream) (d blk : Nat) :
    sideMeasure docs (d + 1) 0 ≤ sideMeasure docs d blk := by
  unfold sideMeasure
  rw [sum_drop_succ docs d, show d + 1 + 1 = d + 2 from rfl]
  omega

theorem sideMeasure_advance_lt (docs : List ConnectionStream) (d blk : Nat)
    (hblk : hasBlocks docs d blk = false) (hd : d < docs.length) :
    sideMeasure docs (d + 1) 0 < sideMeasure docs d blk := by
  have hge : (getStream docs d).blocksIndexes.length ≤ blk := by
    simpa [hasBlocks] using hblk
  unfold sideMeasure
  rw [sum_drop_succ docs d, show d + 1 + 1 = d + 2 from rfl]
  omega

theorem advanceDocs_cDoc_cBlk (cdocs sdocs : List ConnectionStream) (cur : Cursor) :
    (hasBlocks cdocs cur.cDoc cur.cBlk = true ∧
      (advanceDocs cdocs sdocs cur).cDoc = cur.cDoc ∧
      (advanceDocs cdocs sdocs cur).cBlk = cur.cBlk) ∨
      (hasBlocks cdocs cur.cDoc cur.cBlk = false ∧
        (advanceDocs cdocs sdocs cur).cDoc = cur.cDoc + 1 ∧
        (advanceDocs cdocs sdocs cur).cBlk = 0) := by
  unfold advanceDocs
  by_cases h1 : hasBlocks cdocs cur.cDoc cur.cBlk <;>
    by_cases h2 : hasBlocks sdocs cur.sDoc cur.sBlk <;>
    simp [h1, h2]

theorem advanceDocs_sDoc_sBlk (cdocs sdocs : List ConnectionStream) (cur : Cursor) :
    (hasBlocks sdocs cur.sDoc cur.sBlk = true ∧
      (advanceDocs cdocs sdocs cur).sDoc = cur.sDoc ∧
      (advanceDocs cdocs sdocs cur).sBlk = cur.sBlk) ∨
      (hasBlocks sdocs cur.sDoc cur.sBlk = false ∧
        (advanceDocs cdocs sdocs cur).sDoc = cur.sDoc + 1 ∧
        (advanceDocs cdocs sdocs cur).sBlk = 0) := by
  unfold advanceDocs
  by_cases h1 : hasBlocks cdocs cur.cDoc cur.cBlk <;>
    by_cases h2 : hasBlocks sdocs cur.sDoc cur.sBlk <;>
    simp [h1, h2]

theorem advanceDocs_measure_le (cdocs sdocs : List ConnectionStream) (cur : Cursor) :
    curMeasure cdocs sdocs (advanceDocs cdocs sdocs cur) ≤ curMeasure cdocs sdocs cur := by
  have hc := advanceDocs_cDoc_cBlk cdocs sdocs cur
  have hs := advanceDocs_sDoc_sBlk cdocs sdocs cur
  unfold curMeasure
  rcases hc with ⟨_, hc1, hc2⟩ | ⟨_, hc1, hc2⟩ <;> rcases hs with ⟨_, hs1, hs2⟩ | ⟨_, hs1, hs2⟩ <;>
    rw [hc1, hc2, hs1, hs2] <;>
    exact Nat.add_le_add (by first | rfl | exact sideMeasure_advance_le cdocs cur.cDoc cur.cBlk)
      (by first | rfl | exact sideMeasure_advance_le sdocs cur.sDoc cur.sBlk)

theorem advanceDocs_measure_lt_client (cdocs sdocs : List ConnectionStream) (cur : Cursor)
    (hcb : hasBlocks cdocs cur.cDoc cur.cBlk = false) (hd : cur.cDoc < cdocs.length) :
    curMeasure cdocs sdocs (advanceDocs cdocs sdocs cur) < curMeasure cdocs sdocs cur := by
  have hs := advanceDocs_sDoc_sBlk cdocs sdocs cur
  have hc : (advanceDocs cdocs sdocs cur).cDoc = cur.cDoc + 1 ∧
      (advanceDocs cdocs sdocs cur).cBlk = 0 := by
    unfold advanceDocs
    by_cases h2 : hasBlocks sdocs cur.sDoc cur.sBlk <;> simp [hcb, h2]
  unfold curMeasure
  rw [hc.1, hc.2]
  rcases hs with ⟨_, hs1, hs2⟩ | ⟨_, hs1, hs2⟩ <;> rw [hs1, hs2]
  · exact Nat.add_lt_add_of_lt_of_le (sideMeasure_advance_lt cdocs cur.cDoc cur.cBlk hcb hd)
      (le_refl _)
  · exact Nat.add_lt_add_of_lt_of_le (sideMeasure_advance_lt cdocs cur.cDoc cur.cBlk hcb hd)
      (sideMeasure_advance_le sdocs cur.sDoc cur.sBlk)

theorem advanceDocs_measure_lt_server (cdocs sdocs : List ConnectionStream) (cur : Cursor)
    (hsb : hasBlocks sdocs cur.sDoc cur.sBlk = false) (hd : cur.sDoc < sdocs.length) :
    curMeasure cdocs sdocs (advanceDocs cdocs sdocs cur) < curMeasure cdocs sdocs cur := by
  have hc := advanceDocs_cDoc_cBlk cdocs sdocs cur
  have hs : (advanceDocs cdocs sdocs cur).sDoc = cur.sDoc + 1 ∧
      (advanceDocs cdocs sdocs cur).sBlk = 0 := by
    unfold advanceDocs
    by_cases h1 : hasBlocks cdocs cur.cDoc cur.cBlk <;> simp [hsb, h1]
  unfold curMeasure
  rw [hs.1, hs.2]
  rcases hc with ⟨_, hc1, hc2⟩ | ⟨_, hc1, hc2⟩ <;> rw [hc1, hc2]
  · exact Nat.add_lt_add_of_le_of_lt (le_refl _)
      (sideMeasure_advance_lt sdocs cur.sDoc cur.sBlk hsb hd)
  · exact Nat.add_lt_add_of_le_of_lt (sideMeasure_advance_le cdocs cur.cDoc cur.cBlk)
      (sideMeasure_advance_lt sdocs cur.sDoc cur.sBlk hsb hd)

theorem clientMid_proj (cdocs : List ConnectionStream) (cur : Cursor) :
    (clientMid cdocs cur).cDoc = cur.cDoc ∧ (clientMid cdocs cur).cBlk = cur.cBlk + 1 ∧
      (clientMid cdocs cur).sDoc = cur.sDoc ∧ (clientMid cdocs cur).sBlk = cur.sBlk :=
  ⟨rfl, rfl, rfl, rfl⟩

theorem serverMid_proj (sdocs : List ConnectionStream) (cur : Cursor) :
    (serverMid sdocs cur).cDoc = cur.cDoc ∧ (serverMid sdocs cur).cBlk = cur.cBlk ∧
      (serverMid sdocs cur).sDoc = cur.sDoc ∧ (serverMid sdocs cur).sBlk = cur.sBlk + 1 :=
  ⟨rfl, rfl, rfl, rfl⟩

theorem curMeasure_clientMid (cdocs sdocs : List ConnectionStream) (cur : Cursor) :
    curMeasure cdocs sdocs (clientMid cdocs cur) =
      sideMeasure cdocs cur.cDoc (cur.cBlk + 1) + sideMeasure sdocs cur.sDoc cur.sBlk := rfl

theorem curMeasure_serverMid (cdocs sdocs : List ConnectionStream) (cur : Cursor) :
    curMeasure cdocs sdocs (serverMid sdocs cur) =
      sideMeasure cdocs cur.cDoc cur.cBlk + sideMeasure sdocs cur.sDoc (cur.sBlk + 1) := rfl

theorem cursorStep_measure_lt (cdocs sdocs : List ConnectionStream) (cur : Cursor)
    (b : SpecBlock) (cur1 : Cursor) (h : cursorStep cdocs sdocs cur = some (b, cur1)) :
    curMeasure cdocs sdocs cur1 < curMeasure cdocs sdocs cur := by
  unfold cursorStep at h
  split at h
  case isTrue hcond =>
    split at h
    case isTrue hcl =>
      simp only [Option.some.injEq, Prod.mk.injEq] at h
      obtain ⟨-, h2⟩ := h
      subst h2
      have hasC : hasBlocks cdocs cur.cDoc cur.cBlk = true :=
        ((Bool.and_eq_true _ _).mp hcl).1
      refine lt_of_le_of_lt (advanceDocs_measure_le _ _ _) ?_
      have hcons := sideMeasure_consume cdocs cur.cDoc cur.cBlk hasC
      rw [curMeasure_clientMid]
      unfold curMeasure
      omega
    case isFalse hsv =>
      simp only [Option.some.injEq, Prod.mk.injEq] at h
      obtain ⟨-, h2⟩ := h
      subst h2
      have hmono := sideMeasure_mono_blk sdocs cur.sDoc cur.sBlk
      by_cases hS : hasBlocks sdocs cur.sDoc cur.sBlk = true
      · refine lt_of_le_of_lt (advanceDocs_measure_le _ _ _) ?_
        have hcons := sideMeasure_consume sdocs cur.sDoc cur.sBlk hS
        rw [curMeasure_serverMid]
        unfold curMeasure
        omega
      · have hSf : hasBlocks sdocs cur.sDoc cur.sBlk = false := by
          simpa using hS
        have hSlen : (getStream sdocs cur.sDoc).blocksIndexes.length ≤ cur.sBlk := by
          have := of_decide_eq_false (by simpa [hasBlocks] using hSf :
            decide (cur.sBlk < (getStream sdocs cur.sDoc).blocksIndexes.length) = false)
          omega
        by_cases hCz : streamZero cdocs cur.cDoc = true
        · have hSz : streamZero sdocs cur.sDoc = false := by
            cases hsz : streamZero sdocs cur.sDoc
            · rfl
            · rw [hCz, hsz] at hcond
              simp at hcond
          have hdlt : cur.sDoc < sdocs.length := by
            have := of_decide_eq_false hSz
            omega
          have hsb2 : hasBlocks sdocs (serverMid sdocs cur).sDoc (serverMid sdocs cur).sBlk
              = false := by
            rw [(serverMid_proj sdocs cur).2.2.1, (serverMid_proj sdocs cur).2.2.2]
            simp only [hasBlocks]
            exact decide_eq_false (by omega)
          have hstrict := advanceDocs_measure_lt_server cdocs sdocs (serverMid sdocs cur)
            hsb2 (by rw [(serverMid_proj sdocs cur).2.2.1]; exact hdlt)
          refine lt_of_lt_of_le hstrict ?_
          rw [curMeasure_serverMid]
          unfold curMeasure
          omega
        · have hCzf : streamZero cdocs cur.cDoc = false := by
            cases hcz : streamZero cdocs cur.cDoc
            · rfl
            · exact absurd hcz hCz
          have hdlt : cur.cDoc < cdocs.length := by
            have := of_decide_eq_false hCzf
            omega
          have hCf : hasBlocks cdocs cur.cDoc cur.cBlk = false := by
            cases hcb : hasBlocks cdocs cur.cDoc cur.cBlk
            · rfl
            · exfalso
              apply hsv
              unfold takeClientCond
              rw [hcb, hSf]
              simp
          have hcb2 : hasBlocks cdocs (serverMid sdocs cur).cDoc (serverMid sdocs cur).cBlk
              = false := by
            rw [(serverMid_proj sdocs cur).1, (serverMid_proj sdocs cur).2.1]
            exact hCf
          have hstrict := advanceDocs_measure_lt_client cdocs sdocs (serverMid sdocs cur)
            hcb2 (by rw [(serverMid_proj sdocs cur).1]; exact hdlt)
          refine lt_of_lt_of_le hstrict ?_
          rw [curMeasure_serverMid]
          unfold curMeasure
          omega
  case isFalse hcond => exact Option.noConfusion h

theorem cursorStep_none_of_measure_zero (cdocs sdocs : List ConnectionStream) (cur : Cursor)
    (h : curMeasure cdocs sdocs cur = 0) : cursorStep cdocs sdocs cur = none := by
  rw [cursorStep_eq_none_iff]
  unfold curMeasure sideMeasure at h
  have h1 : cdocs.length ≤ cur.cDoc := by omega
  have h2 : sdocs.length ≤ cur.sDoc := by omega
  simp [streamZero, h1, h2]

theorem emitSeq_congr (cdocs sdocs : List ConnectionStream) :
    ∀ (f₁ f₂ : Nat) (cur : Cursor), curMeasure cdocs sdocs cur ≤ f₁ →
      curMeasure cdocs sdocs cur ≤ f₂ →
      emitSeq cdocs sdocs f₁ cur = emitSeq cdocs sdocs f₂ cur := by
  intro f₁
  induction f₁ with
  | zero =>
    intro f₂ cur h1 _
    have hn := cursorStep_none_of_measure_zero cdocs sdocs cur (Nat.le_zero.mp h1)
    cases f₂ with
    | zero => rfl
    | succ g => simp [emitSeq, hn]
  | succ f ih =>
    intro f₂ cur _ h2
    cases f₂ with
    | zero =>
      have hn := cursorStep_none_of_measure_zero cdocs sdocs cur (Nat.le_zero.mp h2)
      simp [emitSeq, hn]
    | succ g =>
      simp only [emitSeq]
      cases hstep : cursorStep cdocs sdocs cur with
      | none => rfl
      | some bc =>
        obtain ⟨b, cur1⟩ := bc
        have hlt := cursorStep_measure_lt cdocs sdocs cur b cur1 hstep
        show b :: emitSeq cdocs sdocs f cur1 = b :: emitSeq cdocs sdocs g cur1
        rw [ih g cur1 (by omega) (by omega)]

theorem sideMeasure_init (docs : List ConnectionStream) :
    sideMeasure docs 0 0 = totalBlocks docs + docs.length := by
  unfold sideMeasure totalBlocks
  cases docs with
  | nil => simp [getStream, emptyStream]
  | cons s rest =>
    have hg : getStream (s :: rest) 0 = s := rfl
    rw [hg]
    simp only [List.drop_succ_cons, List.drop_zero, List.map_cons, List.sum_cons,
      List.length_cons]
    omega

theorem curMeasure_init_lt_readerFuel (cdocs sdocs : List ConnectionStream) :
    curMeasure cdocs sdocs initCursor < readerFuel cdocs sdocs := by
  unfold curMeasure readerFuel
  have h1 := sideMeasure_init cdocs
  have h2 := sideMeasure_init sdocs
  have hc : initCursor.cDoc = 0 ∧ initCursor.cBlk = 0 ∧ initCursor.sDoc = 0 ∧
      initCursor.sBlk = 0 := ⟨rfl, rfl, rfl, rfl⟩
  rw [hc.1, hc.2.1, hc.2.2.1, hc.2.2.2, h1, h2]
  omega

/-! ## Lemmas about the metadata flush -/

theorem flatMap_flagRun_length (parse : List Nat → Metadata)
    (decode : String → List Nat → List Nat) (fmt : String) (rs : List (List SpecBlock)) :
    (rs.flatMap (flagRun parse decode fmt)).length = (rs.flatMap id).length := by
  induction rs with
  | nil => rfl
  | cons r rest ih => simp [flagRun_length, ih]

theorem runsState_len (C : List SpecBlock) :
    ((runsState C).1.flatMap id).length + (runsState C).2.length = C.length := by
  have h := congrArg List.length (runsState_join C)
  simpa [List.length_append] using h

theorem lastServerOf_eq_not (C : List SpecBlock) (h : C ≠ []) :
    lastServerOf C = !(lastClientOf C) := by
  obtain ⟨x, hx⟩ : ∃ x, C.getLast? = some x :=
    Option.ne_none_iff_exists'.mp (by simpa [List.getLast?_eq_none_iff] using h)
  simp [lastClientOf, lastServerOf, hx]

theorem flagRun_nil (parse : List Nat → Metadata) (decode : String → List Nat → List Nat)
    (fmt : String) : flagRun parse decode fmt [] = [] := rfl

theorem flushMeta_live (parse : List Nat → Metadata)
    (decode : String → List Nat → List Nat) (fmt : String) (C : List SpecBlock)
    (st : ReaderState) (hlive : InvLive parse decode fmt C st) :
    (flushMeta parse st).arena = (runsOf C).flatMap (flagRun parse decode fmt) ∧
      (flushMeta parse st).buffer = [] ∧ (flushMeta parse st).chunk = [] ∧
      (flushMeta parse st).out = st.out ∧ (flushMeta parse st).cursor = st.cursor ∧
      (flushMeta parse st).lastClient = st.lastClient ∧
      (flushMeta parse st).lastServer = st.lastServer := by
  obtain ⟨hA, hB, hch⟩ := hlive
  refine ⟨?_, rfl, rfl, rfl, rfl, rfl, rfl⟩
  show applyMeta (parse st.chunk) st.buffer false st.arena = _
  have hlenA : ((runsState C).1.flatMap (flagRun parse decode fmt)).length =
      C.length - (runsState C).2.length := by
    rw [flatMap_flagRun_length]
    have := runsState_len C
    omega
  have hlenB : (runsState C).2.length = ((runsState C).2.map (blockPayload decode fmt)).length :=
    (List.length_map _ _).symm
  rw [hA, hB, hch, ← hlenA, hlenB, applyMeta_range']
  show _ ++ flagRun parse decode fmt (runsState C).2 = _
  unfold runsOf
  rcases hr : runsState C with ⟨done, pend⟩
  cases pend with
  | nil => simp [flagRun_nil]
  | cons p ps => simp [List.flatMap_append]

theorem flushMeta_done (parse : List Nat → Metadata) (st : ReaderState)
    (h : st.buffer = []) : flushMeta parse st = { st with chunk := [] } := by
  unfold flushMeta
  rw [h]
  rfl

/-! ## The loop iteration preserves the invariant -/

theorem iterTail_inv (cdocs sdocs : List ConnectionStream) (parse : List Nat → Metadata)
    (decode : String → List Nat → List Nat) (fmt : String) (skip : Nat)
    (C : List SpecBlock) (b : SpecBlock) (cur1 : Cursor) (st1 : ReaderState)
    (done : List (List SpecBlock)) (P0 : List SpecBlock)
    (hsplit : runsState (C ++ [b]) = (done, P0 ++ [b]))
    (h1A : st1.arena = done.flatMap (flagRun parse decode fmt) ++
      P0.map (blockPayload decode fmt))
    (h1B : st1.buffer = List.range' (done.flatMap id).length P0.length)
    (h1ch : st1.chunk = P0.flatMap (fun x => x.raw))
    (h1out : st1.out = outPos skip 0 C)
    (hlen : (done.flatMap id).length + P0.length = C.length) :
    InvCore skip (C ++ [b]) (iterOut skip b st1.arena.length
        (iterZeroFlush cdocs sdocs parse (iterAppend decode fmt b cur1 st1))) ∧
      (iterOut skip b st1.arena.length
        (iterZeroFlush cdocs sdocs parse (iterAppend decode fmt b cur1 st1))).cursor = cur1 ∧
      (cursorStep cdocs sdocs cur1 = none →
        InvDone parse decode fmt (C ++ [b]) (iterOut skip b st1.arena.length
          (iterZeroFlush cdocs sdocs parse (iterAppend decode fmt b cur1 st1)))) ∧
      (cursorStep cdocs sdocs cur1 ≠ none →
        InvLive parse decode fmt (C ++ [b]) (iterOut skip b st1.arena.length
          (iterZeroFlush cdocs sdocs parse (iterAppend decode fmt b cur1 st1)))) := by
  have hlen1 : st1.arena.length = C.length := by
    rw [h1A, List.length_append, List.length_map]
    have hfr : (done.flatMap (flagRun parse decode fmt)).length = (done.flatMap id).length :=
      flatMap_flagRun_length parse decode fmt done
    omega
  have harena2 : (iterAppend decode fmt b cur1 st1).arena =
      done.flatMap (flagRun parse decode fmt) ++
        (P0 ++ [b]).map (blockPayload decode fmt) := by
    show st1.arena ++ [blockPayload decode fmt b] = _
    rw [h1A, List.map_append, List.append_assoc]
    rfl
  have hbuf2 : (iterAppend decode fmt b cur1 st1).buffer =
      List.range' ((C ++ [b]).length - (P0 ++ [b]).length) (P0 ++ [b]).length := by
    show st1.buffer ++ [st1.arena.length] = _
    rw [h1B, hlen1]
    have h1 : (C ++ [b]).length - (P0 ++ [b]).length = (done.flatMap id).length := by
      simp only [List.length_append, List.length_singleton]
      omega
    have h2 : (P0 ++ [b]).length = P0.length + 1 := by simp
    rw [h1, h2, List.range'_concat]
    have h3 : (done.flatMap id).length + 1 * P0.length = C.length := by omega
    rw [h3]
  have hch2 : (iterAppend decode fmt b cur1 st1).chunk = (P0 ++ [b]).flatMap (fun x => x.raw) := by
    show st1.chunk ++ b.raw = _
    rw [h1ch, List.flatMap_append, List.flatMap_singleton]
  have hlive2 : InvLive parse decode fmt (C ++ [b]) (iterAppend decode fmt b cur1 st1) := by
    unfold InvLive
    rw [hsplit]
    exact ⟨harena2, hbuf2, hch2⟩
  have hout2 : (iterAppend decode fmt b cur1 st1).out = outPos skip 0 C := h1out
  have hcur2 : (iterAppend decode fmt b cur1 st1).cursor = cur1 := rfl
  have houtsnoc : ∀ (l3 : List Nat), l3 = outPos skip 0 C →
      (if skip < b.endIdx then l3 ++ [st1.arena.length] else l3) = outPos skip 0 (C ++ [b]) := by
    intro l3 hl3
    rw [outPos_snoc skip C 0 b, hl3, hlen1]
    by_cases hc : skip < b.endIdx
    · simp [hc]
    · simp [hc]
  by_cases hz : (streamZero cdocs cur1.cDoc && streamZero sdocs cur1.sDoc) = true
  · -- both streams zero after this block: the final flush runs here
    have hz' : (streamZero cdocs (iterAppend decode fmt b cur1 st1).cursor.cDoc &&
        streamZero sdocs (iterAppend decode fmt b cur1 st1).cursor.sDoc) = true := hz
    have hnone : cursorStep cdocs sdocs cur1 = none := (cursorStep_eq_none_iff _ _ _).mpr hz
    have hst3 : iterZeroFlush cdocs sdocs parse (iterAppend decode fmt b cur1 st1) =
        flushMeta parse (iterAppend decode fmt b cur1 st1) := by
      unfold iterZeroFlush
      rw [if_pos hz']
    have hfl := flushMeta_live parse decode fmt (C ++ [b]) _ hlive2
    constructor
    · refine ⟨?_, ?_, ?_⟩
      · show (if skip < b.endIdx then (iterZeroFlush cdocs sdocs parse
            (iterAppend decode fmt b cur1 st1)).out ++ [st1.arena.length] else _) = _
        rw [hst3, hfl.2.2.2.1, hout2]
        exact houtsnoc _ rfl
      · show (iterZeroFlush cdocs sdocs parse (iterAppend decode fmt b cur1 st1)).lastClient = _
        rw [hst3, hfl.2.2.2.2.2.1, lastClientOf_snoc]
        rfl
      · show (iterZeroFlush cdocs sdocs parse (iterAppend decode fmt b cur1 st1)).lastServer = _
        rw [hst3, hfl.2.2.2.2.2.2, lastServerOf_snoc]
        rfl
    constructor
    · show (iterZeroFlush cdocs sdocs parse (iterAppend decode fmt b cur1 st1)).cursor = cur1
      rw [hst3, hfl.2.2.2.2.1, hcur2]
    constructor
    · intro _
      refine ⟨?_, ?_, ?_⟩
      · show (iterZeroFlush cdocs sdocs parse (iterAppend decode fmt b cur1 st1)).arena = _
        rw [hst3]
        exact hfl.1
      · show (iterZeroFlush cdocs sdocs parse (iterAppend decode fmt b cur1 st1)).buffer = []
        rw [hst3]
        exact hfl.2.1
      · show (iterZeroFlush cdocs sdocs parse (iterAppend decode fmt b cur1 st1)).chunk = []
        rw [hst3]
        exact hfl.2.2.1
    · intro hne
      exact absurd hnone hne
  · -- more blocks remain: no flush here
    have hz' : ¬ ((streamZero cdocs (iterAppend decode fmt b cur1 st1).cursor.cDoc &&
        streamZero sdocs (iterAppend decode fmt b cur1 st1).cursor.sDoc) = true) := hz
    have hne : cursorStep cdocs sdocs cur1 ≠ none := by
      intro hc
      exact hz ((cursorStep_eq_none_iff _ _ _).mp hc)
    have hst3 : iterZeroFlush cdocs sdocs parse (iterAppend decode fmt b cur1 st1) =
        iterAppend decode fmt b cur1 st1 := by
      unfold iterZeroFlush
      rw [if_neg hz']
    constructor
    · refine ⟨?_, ?_, ?_⟩
      · show (if skip < b.endIdx then (iterZeroFlush cdocs sdocs parse
            (iterAppend decode fmt b cur1 st1)).out ++ [st1.arena.length] else _) = _
        rw [hst3, hout2]
        exact houtsnoc _ rfl
      · show (iterZeroFlush cdocs sdocs parse (iterAppend decode fmt b cur1 st1)).lastClient = _
        rw [hst3, lastClientOf_snoc]
        rfl
      · show (iterZeroFlush cdocs sdocs parse (iterAppend decode fmt b cur1 st1)).lastServer = _
        rw [hst3, lastServerOf_snoc]
        rfl
    constructor
    · show (iterZeroFlush cdocs sdocs parse (iterAppend decode fmt b cur1 st1)).cursor = cur1
      rw [hst3, hcur2]
    constructor
    · intro hnone
      exact absurd hnone hne
    · intro _
      obtain ⟨ha, hb, hc⟩ := hlive2
      refine ⟨?_, ?_, ?_⟩
      · show (iterZeroFlush cdocs sdocs parse (iterAppend decode fmt b cur1 st1)).arena = _
        rw [hst3]
        exact ha
      · show (iterZeroFlush cdocs sdocs parse (iterAppend decode fmt b cur1 st1)).buffer = _
        rw [hst3]
        exact hb
      · show (iterZeroFlush cdocs sdocs parse (iterAppend decode fmt b cur1 st1)).chunk = _
        rw [hst3]
        exact hc

theorem runSnoc_cons_same (done : List (List SpecBlock)) (p : SpecBlock) (ps : List SpecBlock)
    (b : SpecBlock) (h : (p.fromClient == b.fromClient) = true) :
    runSnoc (done, p :: ps) b = (done, (p :: ps) ++ [b]) := by
  unfold runSnoc
  dsimp only
  rw [h]
  simp

theorem runSnoc_cons_diff (done : List (List SpecBlock)) (p : SpecBlock) (ps : List SpecBlock)
    (b : SpecBlock) (h : (p.fromClient == b.fromClient) = false) :
    runSnoc (done, p :: ps) b = (done ++ [p :: ps], [b]) := by
  unfold runSnoc
  dsimp only
  rw [h]
  simp

theorem readerIter_inv (cdocs sdocs : List ConnectionStream) (parse : List Nat → Metadata)
    (decode : String → List Nat → List Nat) (fmt : String) (skip : Nat)
    (C : List SpecBlock) (st : ReaderState) (b : SpecBlock) (cur1 : Cursor)
    (hcore : InvCore skip C st) (hlive : InvLive parse decode fmt C st) :
    InvCore skip (C ++ [b]) (readerIter cdocs sdocs parse decode fmt skip st b cur1) ∧
      (readerIter cdocs sdocs parse decode fmt skip st b cur1).cursor = cur1 ∧
      (cursorStep cdocs sdocs cur1 = none → InvDone parse decode fmt (C ++ [b])
        (readerIter cdocs sdocs parse decode fmt skip st b cur1)) ∧
      (cursorStep cdocs sdocs cur1 ≠ none → InvLive parse decode fmt (C ++ [b])
        (readerIter cdocs sdocs parse decode fmt skip st b cur1)) := by
  obtain ⟨hout, hlc, hls⟩ := hcore
  obtain ⟨hA, hB, hch⟩ := hlive
  have hri : readerIter cdocs sdocs parse decode fmt skip st b cur1 =
      iterOut skip b (iterSideFlush parse st b).arena.length
        (iterZeroFlush cdocs sdocs parse
          (iterAppend decode fmt b cur1 (iterSideFlush parse st b))) := rfl
  rcases hr : runsState C with ⟨done, pend⟩
  have hlenD := runsState_len C
  rw [hr] at hlenD hA hB hch
  dsimp only at hlenD hA hB hch
  cases pend with
  | nil =>
    have hC : C = [] := (runsState_pend_nil_iff C).mp (by rw [hr])
    subst hC
    rw [runsState_nil] at hr
    injection hr with hd hp
    subst hd
    have hst1 : iterSideFlush parse st b = st := by
      unfold iterSideFlush
      rw [hlc, hls]
      have hfalse : lastClientOf [] = false := rfl
      have hfalse2 : lastServerOf [] = false := rfl
      rw [hfalse, hfalse2]
      cases b.fromClient <;> simp
    rw [hri, hst1]
    exact iterTail_inv cdocs sdocs parse decode fmt skip [] b cur1 st [] []
      rfl (by simpa using hA) (by simpa using hB) (by simpa using hch) hout (by simp)
  | cons p ps =>
    have hCne : C ≠ [] := by
      intro h
      subst h
      rw [runsState_nil] at hr
      injection hr with _ hp
      exact List.noConfusion hp
    have hlsC : lastServerOf C = !(lastClientOf C) := lastServerOf_eq_not C hCne
    have hpside : p.fromClient = lastClientOf C := by
      have := runsState_pend_side C p (by rw [hr]; exact List.mem_cons_self p ps)
      exact this
    by_cases hbs : b.fromClient = lastClientOf C
    · -- the emitted block continues the current run
      have hst1 : iterSideFlush parse st b = st := by
        unfold iterSideFlush
        rw [hlc, hls, hlsC, ← hbs]
        cases hfc : b.fromClient <;> simp [hfc]
      have hsn : runsState (C ++ [b]) = (done, (p :: ps) ++ [b]) := by
        rw [runsState_snoc, hr]
        exact runSnoc_cons_same done p ps b (by rw [hpside, ← hbs]; simp)
      rw [hri, hst1]
      refine iterTail_inv cdocs sdocs parse decode fmt skip C b cur1 st done (p :: ps)
        hsn hA ?_ hch hout (by omega)
      rw [hB]
      congr 1
      omega
    · -- the emitted block starts a new run; the previous run is flushed
      have hst1 : iterSideFlush parse st b = flushMeta parse st := by
        unfold iterSideFlush
        rw [hlc, hls, hlsC]
        have hcond : (if b.fromClient then !(lastClientOf C) else lastClientOf C) = true := by
          cases hfc : b.fromClient <;> cases hlcc : lastClientOf C <;> simp_all
        rw [hcond]
        simp
      have hliveC : InvLive parse decode fmt C st := by
        unfold InvLive
        rw [hr]
        exact ⟨hA, hB, hch⟩
      have hfl := flushMeta_live parse decode fmt C st hliveC
      have hrunsOfC : runsOf C = done ++ [p :: ps] := by
        unfold runsOf
        rw [hr]
      have hsn : runsState (C ++ [b]) = (done ++ [p :: ps], [] ++ [b]) := by
        rw [runsState_snoc, hr]
        have hc : (p.fromClient == b.fromClient) = false := by
          rw [hpside]
          cases hfc : b.fromClient <;> cases hlcc : lastClientOf C <;> simp_all
        rw [runSnoc_cons_diff done p ps b hc]
        rfl
      rw [hri, hst1]
      refine iterTail_inv cdocs sdocs parse decode fmt skip C b cur1 (flushMeta parse st)
        (done ++ [p :: ps]) [] hsn ?_ ?_ ?_ ?_ ?_
      · rw [hfl.1, hrunsOfC]
        simp
      · rw [hfl.2.1]
        rfl
      · rw [hfl.2.2.1]
        rfl
      · rw [hfl.2.2.2.1]
        exact hout
      · rw [List.flatMap_append]
        simp only [List.length_append, List.length_nil, List.flatMap_singleton, id_eq]
        omega

/-! ## The merge loop computes the functional form -/

theorem render_eq_flagAndPick (parse : List Nat → Metadata)
    (decode : String → List Nat → List Nat) (fmt : String) (skip : Nat)
    (C : List SpecBlock) (st : ReaderState)
    (hA : st.arena = (runsOf C).flatMap (flagRun parse decode fmt))
    (hout : st.out = outPos skip 0 C) :
    render st = flagAndPick parse decode fmt skip C := by
  unfold render flagAndPick
  rw [hout, hA]
  have hlen : ((runsOf C).flatMap (flagRun parse decode fmt)).length = C.length :=
    flagged_length parse decode fmt C
  have h := outPos_render skip C ((runsOf C).flatMap (flagRun parse decode fmt)) [] hlen
  simpa using h

theorem readerLoop_flagAndPick (cdocs sdocs : List ConnectionStream)
    (parse : List Nat → Metadata) (decode : String → List Nat → List Nat) (fmt : String)
    (skip lim : Nat) :
    ∀ (fuel : Nat) (C : List SpecBlock) (st : ReaderState),
      curMeasure cdocs sdocs st.cursor ≤ fuel →
      ReaderInv cdocs sdocs parse decode fmt skip C st →
      readerLoop cdocs sdocs parse decode fmt skip lim fuel st =
        flagAndPick parse decode fmt skip
          (C ++ cutThrough ((skip + lim) % U64) (emitSeq cdocs sdocs fuel st.cursor)) := by
  intro fuel
  induction fuel with
  | zero =>
    intro C st hfuel hinv
    have hnone : cursorStep cdocs sdocs st.cursor = none :=
      cursorStep_none_of_measure_zero _ _ _ (Nat.le_zero.mp hfuel)
    obtain ⟨hcore, hdisj⟩ := hinv
    rcases hdisj with ⟨hne, _⟩ | ⟨_, hdone⟩
    · exact absurd hnone hne
    · show render st = _
      rw [show emitSeq cdocs sdocs 0 st.cursor = [] from rfl]
      rw [show cutThrough ((skip + lim) % U64) [] = [] from rfl, List.append_nil]
      exact render_eq_flagAndPick parse decode fmt skip C st hdone.1 hcore.1
  | succ fuel ih =>
    intro C st hfuel hinv
    obtain ⟨hcore, hdisj⟩ := hinv
    cases hstep : cursorStep cdocs sdocs st.cursor with
    | none =>
      rcases hdisj with ⟨hne, _⟩ | ⟨_, hdone⟩
      · exact absurd hstep hne
      · simp only [readerLoop, hstep]
        rw [show emitSeq cdocs sdocs (fuel + 1) st.cursor = [] by simp [emitSeq, hstep]]
        rw [show cutThrough ((skip + lim) % U64) [] = [] from rfl, List.append_nil]
        exact render_eq_flagAndPick parse decode fmt skip C st hdone.1 hcore.1
    | some bc =>
      obtain ⟨b, cur1⟩ := bc
      rcases hdisj with ⟨_, hlive⟩ | ⟨hn, _⟩
      on_goal 2 => rw [hstep] at hn; exact Option.noConfusion hn
      have hit := readerIter_inv cdocs sdocs parse decode fmt skip C st b cur1 hcore hlive
      have hemit : emitSeq cdocs sdocs (fuel + 1) st.cursor =
          b :: emitSeq cdocs sdocs fuel cur1 := by
        simp [emitSeq, hstep]
      simp only [readerLoop, hstep]
      rw [hemit]
      have hmlt := cursorStep_measure_lt cdocs sdocs st.cursor b cur1 hstep
      by_cases hcut : (skip + lim) % U64 < b.endIdx
      · rw [if_pos hcut]
        rw [show cutThrough ((skip + lim) % U64) (b :: emitSeq cdocs sdocs fuel cur1) = [b] by
          unfold cutThrough; rw [if_pos hcut]]
        -- the final flush leaves the arena fully flagged whatever the state shape
        cases hstep1 : cursorStep cdocs sdocs cur1 with
        | none =>
          have hdone4 := hit.2.2.1 hstep1
          have hfm := flushMeta_done parse
            (readerIter cdocs sdocs parse decode fmt skip st b cur1) hdone4.2.1
          rw [hfm]
          refine render_eq_flagAndPick parse decode fmt skip (C ++ [b]) _ ?_ ?_
          · show (readerIter cdocs sdocs parse decode fmt skip st b cur1).arena = _
            exact hdone4.1
          · show (readerIter cdocs sdocs parse decode fmt skip st b cur1).out = _
            exact hit.1.1
        | some bc2 =>
          have hlive4 := hit.2.2.2 (by rw [hstep1]; exact fun h => Option.noConfusion h)
          have hfl := flushMeta_live parse decode fmt (C ++ [b]) _ hlive4
          exact render_eq_flagAndPick parse decode fmt skip (C ++ [b]) _ hfl.1
            (by rw [hfl.2.2.2.1]; exact hit.1.1)
      · rw [if_neg hcut]
        rw [show cutThrough ((skip + lim) % U64) (b :: emitSeq cdocs sdocs fuel cur1) =
            b :: cutThrough ((skip + lim) % U64) (emitSeq cdocs sdocs fuel cur1) by
          rw [show cutThrough ((skip + lim) % U64) (b :: emitSeq cdocs sdocs fuel cur1) =
              (if (skip + lim) % U64 < b.endIdx then [b]
                else b :: cutThrough ((skip + lim) % U64) (emitSeq cdocs sdocs fuel cur1))
            from rfl]
          rw [if_neg hcut]]
        have hinv4 : ReaderInv cdocs sdocs parse decode fmt skip (C ++ [b])
            (readerIter cdocs sdocs parse decode fmt skip st b cur1) := by
          refine ⟨hit.1, ?_⟩
          cases hstep1 : cursorStep cdocs sdocs cur1 with
          | none =>
            right
            refine ⟨?_, hit.2.2.1 hstep1⟩
            rw [hit.2.1]
            exact hstep1
          | some bc2 =>
            left
            refine ⟨?_, hit.2.2.2 (by rw [hstep1]; exact fun h => Option.noConfusion h)⟩
            rw [hit.2.1, hstep1]
            exact fun h => Option.noConfusion h
        have hfuel4 : curMeasure cdocs sdocs
            (readerIter cdocs sdocs parse decode fmt skip st b cur1).cursor ≤ fuel := by
          rw [hit.2.1]
          omega
        have hrec := ih (C ++ [b]) (readerIter cdocs sdocs parse decode fmt skip st b cur1)
          hfuel4 hinv4
        rw [hit.2.1] at hrec
        rw [hrec, List.append_assoc]
        rfl

theorem GetConnectionPayload_eq_assemble (cdocs sdocs : List ConnectionStream)
    (parse : List Nat → Metadata) (decode : String → List Nat → List Nat)
    (format : QueryFormat) :
    GetConnectionPayload cdocs sdocs parse decode format =
      assemble parse decode format.format format.skip
        ((format.skip +
          (if format.limit ≤ 0 then DefaultQueryFormatLimit else format.limit)) % U64)
        (mergedBlocks cdocs sdocs) := by
  have hinv : ReaderInv cdocs sdocs parse decode format.format format.skip []
      initReaderState := by
    refine ⟨⟨rfl, rfl, rfl⟩, ?_⟩
    cases hstep : cursorStep cdocs sdocs initCursor with
    | none =>
      right
      exact ⟨hstep, rfl, rfl, rfl⟩
    | some bc =>
      left
      refine ⟨?_, rfl, rfl, rfl⟩
      show cursorStep cdocs sdocs initCursor ≠ none
      rw [hstep]
      exact fun h => Option.noConfusion h
  have hfuel : curMeasure cdocs sdocs initReaderState.cursor ≤ readerFuel cdocs sdocs :=
    le_of_lt (curMeasure_init_lt_readerFuel cdocs sdocs)
  have h := readerLoop_flagAndPick cdocs sdocs parse decode format.format format.skip
    (if format.limit ≤ 0 then DefaultQueryFormatLimit else format.limit)
    (readerFuel cdocs sdocs) [] initReaderState hfuel hinv
  unfold GetConnectionPayload assemble mergedBlocks
  rw [h]
  rw [List.nil_append]
  rfl

/-! ## Transfer lemmas between payload and block sequences -/

theorem zipFilter_fst_sublist (c : SpecBlock → Bool) :
    ∀ (l1 : List Payload) (l2 : List SpecBlock),
      (((l1.zip l2).filter (fun pb => c pb.2)).map Prod.fst).Sublist l1 := by
  intro l1
  induction l1 with
  | nil => intro l2; simp
  | cons p l1' ih =>
    intro l2
    cases l2 with
    | nil => simp
    | cons b l2' =>
      rw [List.zip_cons_cons, List.filter_cons]
      by_cases hc : c b
      · simp only [hc, if_pos, List.map_cons]
        exact List.Sublist.cons₂ p (ih l2')
      · have : c (p, b).2 = false := by simpa using hc
        rw [this]
        simp only [Bool.false_eq_true, if_false]
        exact List.Sublist.cons p (ih l2')

theorem map2_filter_transfer {γ : Type} (f1 : Payload → Bool) (f2 : SpecBlock → Bool)
    (g1 : Payload → γ) (g2 : SpecBlock → γ) :
    ∀ (l1 : List Payload) (l2 : List SpecBlock),
      l1.map (fun a => (f1 a, g1 a)) = l2.map (fun b => (f2 b, g2 b)) →
      (l1.filter f1).map g1 = (l2.filter f2).map g2 := by
  intro l1
  induction l1 with
  | nil =>
    intro l2 h
    have : l2 = [] := by
      cases l2 with
      | nil => rfl
      | cons b l2' => simp at h
    subst this
    rfl
  | cons a l1' ih =>
    intro l2 h
    cases l2 with
    | nil => simp at h
    | cons b l2' =>
      simp only [List.map_cons, List.cons.injEq] at h
      obtain ⟨hab, hrest⟩ := h
      have hf : f1 a = f2 b := congrArg Prod.fst hab
      have hg : g1 a = g2 b := congrArg Prod.snd hab
      rw [List.filter_cons, List.filter_cons, ← hf]
      by_cases hfa : f1 a = true
      · rw [if_pos hfa, if_pos hfa, List.map_cons, List.map_cons, hg, ih l2' hrest]
      · have hfa' : (f1 a = true) = False := by simp [hfa]
        rw [if_neg (by simp [hfa]), if_neg (by simp [hfa])]
        exact ih l2' hrest

theorem cutThrough_take (bound : Nat) :
    ∀ (E : List SpecBlock), ∃ k, cutThrough bound E = E.take k := by
  intro E
  induction E with
  | nil => exact ⟨0, rfl⟩
  | cons b rest ih =>
    by_cases hc : bound < b.endIdx
    · refine ⟨1, ?_⟩
      show (if bound < b.endIdx then [b] else b :: cutThrough bound rest) = _
      rw [if_pos hc]
      rfl
    · obtain ⟨k, hk⟩ := ih
      refine ⟨k + 1, ?_⟩
      show (if bound < b.endIdx then [b] else b :: cutThrough bound rest) = _
      rw [if_neg hc, hk]
      rfl

theorem cutThrough_sublist (bound : Nat) (E : List SpecBlock) :
    (cutThrough bound E).Sublist E := by
  obtain ⟨k, hk⟩ := cutThrough_take bound E
  rw [hk]
  exact List.take_sublist k E

theorem emitWindow_eq_filter (skip bound : Nat) :
    ∀ (E : List SpecBlock),
      emitWindow skip bound E = (cutThrough bound E).filter (fun b => decide (skip < b.endIdx)) := by
  intro E
  induction E with
  | nil => rfl
  | cons b rest ih =>
    show (if bound < b.endIdx then (if skip < b.endIdx then [b] else [])
        else (if skip < b.endIdx then [b] else []) ++ emitWindow skip bound rest) =
      List.filter _ (if bound < b.endIdx then [b] else b :: cutThrough bound rest)
    by_cases h1 : bound < b.endIdx <;> by_cases h2 : skip < b.endIdx <;>
      simp [h1, h2, List.filter_cons, ih]

/-! ## Cursor positions reachable under well-formed documents -/

theorem getStream_mem (docs : List ConnectionStream) (d : Nat) (h : d < docs.length) :
    getStream docs d ∈ docs := by
  have hg : getStream docs d = docs[d] := by
    simp [getStream, List.getD_eq_getElem?_getD, List.getElem?_eq_getElem h]
  rw [hg]
  exact List.getElem_mem h

theorem advanceDocs_ok (cdocs sdocs : List ConnectionStream)
    (hC : ∀ s ∈ cdocs, s.blocksIndexes ≠ []) (hS : ∀ s ∈ sdocs, s.blocksIndexes ≠ [])
    (c : Cursor) : CursorOk cdocs sdocs (advanceDocs cdocs sdocs c) := by
  constructor
  · rcases advanceDocs_cDoc_cBlk cdocs sdocs c with ⟨hb, h1, h2⟩ | ⟨_, h1, h2⟩
    · right
      rw [h1, h2]
      exact hb
    · rw [h1, h2]
      by_cases hd : c.cDoc + 1 < cdocs.length
      · right
        have hne := hC (getStream cdocs (c.cDoc + 1)) (getStream_mem cdocs (c.cDoc + 1) hd)
        simp only [hasBlocks]
        exact decide_eq_true (List.length_pos.mpr hne)
      · left
        simp only [streamZero]
        exact decide_eq_true (by omega)
  · rcases advanceDocs_sDoc_sBlk cdocs sdocs c with ⟨hb, h1, h2⟩ | ⟨_, h1, h2⟩
    · right
      rw [h1, h2]
      exact hb
    · rw [h1, h2]
      by_cases hd : c.sDoc + 1 < sdocs.length
      · right
        have hne := hS (getStream sdocs (c.sDoc + 1)) (getStream_mem sdocs (c.sDoc + 1) hd)
        simp only [hasBlocks]
        exact decide_eq_true (List.length_pos.mpr hne)
      · left
        simp only [streamZero]
        exact decide_eq_true (by omega)

theorem initCursor_ok (cdocs sdocs : List ConnectionStream)
    (hC : ∀ s ∈ cdocs, s.blocksIndexes ≠ []) (hS : ∀ s ∈ sdocs, s.blocksIndexes ≠ []) :
    CursorOk cdocs sdocs initCursor := by
  constructor
  · by_cases hd : 0 < cdocs.length
    · right
      have hne := hC (getStream cdocs 0) (getStream_mem cdocs 0 hd)
      simp only [hasBlocks]
      exact decide_eq_true (List.length_pos.mpr hne)
    · left
      simp only [streamZero]
      exact decide_eq_true (by omega)
  · by_cases hd : 0 < sdocs.length
    · right
      have hne := hS (getStream sdocs 0) (getStream_mem sdocs 0 hd)
      simp only [hasBlocks]
      exact decide_eq_true (List.length_pos.mpr hne)
    · left
      simp only [streamZero]
      exact decide_eq_true (by omega)

theorem cursorStep_cases (cdocs sdocs : List ConnectionStream) (cur : Cursor)
    (b : SpecBlock) (cur1 : Cursor) (hok : CursorOk cdocs sdocs cur)
    (hstep : cursorStep cdocs sdocs cur = some (b, cur1)) :
    (b = blockOf (getStream cdocs cur.cDoc) cur.cBlk cur.cIdx cur.gIdx true ∧
      cur1 = advanceDocs cdocs sdocs (clientMid cdocs cur) ∧
      hasBlocks cdocs cur.cDoc cur.cBlk = true ∧
      (hasBlocks sdocs cur.sDoc cur.sBlk = true →
        (getStream cdocs cur.cDoc).blocksTimestamps.getD cur.cBlk 0 ≤
          (getStream sdocs cur.sDoc).blocksTimestamps.getD cur.sBlk 0)) ∨
    (b = blockOf (getStream sdocs cur.sDoc) cur.sBlk cur.sIdx cur.gIdx false ∧
      cur1 = advanceDocs cdocs sdocs (serverMid sdocs cur) ∧
      hasBlocks sdocs cur.sDoc cur.sBlk = true ∧
      (hasBlocks cdocs cur.cDoc cur.cBlk = true →
        (getStream sdocs cur.sDoc).blocksTimestamps.getD cur.sBlk 0 <
          (getStream cdocs cur.cDoc).blocksTimestamps.getD cur.cBlk 0)) := by
  unfold cursorStep at hstep
  split at hstep
  case isFalse => exact Option.noConfusion hstep
  case isTrue hcond =>
    split at hstep
    case isTrue hcl =>
      left
      simp only [Option.some.injEq, Prod.mk.injEq] at hstep
      obtain ⟨hb, hc⟩ := hstep
      have hand := (Bool.and_eq_true _ _).mp hcl
      refine ⟨hb.symm, hc.symm, hand.1, ?_⟩
      intro hsv
      rcases (Bool.or_eq_true _ _).mp hand.2 with hx | hx
      · rw [hsv] at hx
        simp at hx
      · exact of_decide_eq_true hx
    case isFalse hcl =>
      right
      simp only [Option.some.injEq, Prod.mk.injEq] at hstep
      obtain ⟨hb, hc⟩ := hstep
      have hfalse : takeClientCond cdocs sdocs cur = false := by
        revert hcl
        cases takeClientCond cdocs sdocs cur <;> simp
      have hS : hasBlocks sdocs cur.sDoc cur.sBlk = true := by
        by_contra hS'
        have hSf : hasBlocks sdocs cur.sDoc cur.sBlk = false := by
          revert hS'
          cases hasBlocks sdocs cur.sDoc cur.sBlk <;> simp
        rcases hok.2 with hz | hb2
        · have hCz : streamZero cdocs cur.cDoc = false := by
            cases hcz : streamZero cdocs cur.cDoc
            · rfl
            · rw [hcz, hz] at hcond
              simp at hcond
          rcases hok.1 with hz2 | hb1
          · rw [hz2] at hCz
            exact Bool.noConfusion hCz
          · have : takeClientCond cdocs sdocs cur = true := by
              unfold takeClientCond
              rw [hb1, hSf]
              simp
            rw [this] at hfalse
            exact Bool.noConfusion hfalse
        · rw [hb2] at hSf
          exact Bool.noConfusion hSf
      refine ⟨hb.symm, hc.symm, hS, ?_⟩
      intro hCb
      unfold takeClientCond at hfalse
      rw [hCb, hS] at hfalse
      simp only [Bool.true_and, Bool.not_true, Bool.false_or] at hfalse
      have := of_decide_eq_false hfalse
      omega

theorem hasBlocks_lt (docs : List ConnectionStream) (d blk : Nat)
    (h : hasBlocks docs d blk = true) : d < docs.length := by
  by_contra hd
  have hz : getStream docs d = emptyStream := List.getD_eq_default _ _ (by omega)
  have := of_decide_eq_true h
  rw [hz] at this
  simp [emptyStream] at this

/-! ## Remaining-entry lists along the traversal -/

theorem remOf_zero {α : Type} (g : ConnectionStream → List α) (hg : g emptyStream = [])
    (docs : List ConnectionStream) (d blk : Nat) (hz : streamZero docs d = true) :
    remOf g docs d blk = [] := by
  have hd : docs.length ≤ d := of_decide_eq_true hz
  unfold remOf
  rw [show getStream docs d = emptyStream from List.getD_eq_default _ _ hd, hg,
    List.drop_eq_nil_of_le (by omega : docs.length ≤ d + 1)]
  simp

theorem remOf_head {α : Type} (g : ConnectionStream → List α) (dflt : α)
    (docs : List ConnectionStream) (d blk : Nat) (hb : blk < (g (getStream docs d)).length) :
    remOf g docs d blk = (g (getStream docs d)).getD blk dflt :: remOf g docs d (blk + 1) := by
  unfold remOf
  rw [List.drop_eq_getElem_cons hb]
  have hx : (g (getStream docs d))[blk] = (g (getStream docs d)).getD blk dflt := by
    rw [List.getD_eq_getElem?_getD, List.getElem?_eq_getElem hb]
    rfl
  rw [hx]
  rfl

theorem remOf_advance {α : Type} (g : ConnectionStream → List α) (hg : g emptyStream = [])
    (docs : List ConnectionStream) (hglen : ∀ s ∈ docs, (g s).length ≤ s.blocksIndexes.length)
    (d blk : Nat) (hnb : hasBlocks docs d blk = false) :
    remOf g docs (d + 1) 0 = remOf g docs d blk := by
  have hge : (getStream docs d).blocksIndexes.length ≤ blk := by
    have := of_decide_eq_false (by simpa [hasBlocks] using hnb :
      decide (blk < (getStream docs d).blocksIndexes.length) = false)
    omega
  unfold remOf
  have hdrop : (g (getStream docs d)).drop blk = [] := by
    apply List.drop_eq_nil_of_le
    by_cases hd : d < docs.length
    · exact le_trans (hglen _ (getStream_mem docs d hd)) hge
    · rw [show getStream docs d = emptyStream from List.getD_eq_default _ _ (by omega), hg]
      simp
  rw [hdrop, List.nil_append, List.drop_zero]
  by_cases hd1 : d + 1 < docs.length
  · rw [List.drop_eq_getElem_cons hd1, List.flatMap_cons]
    have hgs : getStream docs (d + 1) = docs[d + 1] := by
      simp [getStream, List.getD_eq_getElem?_getD, List.getElem?_eq_getElem hd1]
    rw [hgs, show d + 1 + 1 = d + 2 from rfl]
  · rw [List.drop_eq_nil_of_le (by omega : docs.length ≤ d + 1 + 1),
      List.drop_eq_nil_of_le (by omega : docs.length ≤ d + 1),
      show getStream docs (d + 1) = emptyStream from List.getD_eq_default _ _ (by omega), hg]
    rfl

theorem remOf_init {α : Type} (g : ConnectionStream → List α) (hg : g emptyStream = [])
    (docs : List ConnectionStream) : remOf g docs 0 0 = docs.flatMap g := by
  unfold remOf
  cases docs with
  | nil => simp [getStream, hg]
  | cons s rest =>
    have hgs : getStream (s :: rest) 0 = s := rfl
    rw [hgs, List.drop_zero, List.drop_succ_cons, List.drop_zero, List.flatMap_cons]

theorem remOf_advanceDocs_c {α : Type} (g : ConnectionStream → List α)
    (hg : g emptyStream = []) (cdocs sdocs : List ConnectionStream)
    (hglen : ∀ s ∈ cdocs, (g s).length ≤ s.blocksIndexes.length) (c : Cursor) :
    remOf g cdocs (advanceDocs cdocs sdocs c).cDoc (advanceDocs cdocs sdocs c).cBlk =
      remOf g cdocs c.cDoc c.cBlk := by
  rcases advanceDocs_cDoc_cBlk cdocs sdocs c with ⟨_, h1, h2⟩ | ⟨hnb, h1, h2⟩
  · rw [h1, h2]
  · rw [h1, h2]
    exact remOf_advance g hg cdocs hglen c.cDoc c.cBlk hnb

theorem remOf_advanceDocs_s {α : Type} (g : ConnectionStream → List α)
    (hg : g emptyStream = []) (cdocs sdocs : List ConnectionStream)
    (hglen : ∀ s ∈ sdocs, (g s).length ≤ s.blocksIndexes.length) (c : Cursor) :
    remOf g sdocs (advanceDocs cdocs sdocs c).sDoc (advanceDocs cdocs sdocs c).sBlk =
      remOf g sdocs c.sDoc c.sBlk := by
  rcases advanceDocs_sDoc_sBlk cdocs sdocs c with ⟨_, h1, h2⟩ | ⟨hnb, h1, h2⟩
  · rw [h1, h2]
  · rw [h1, h2]
    exact remOf_advance g hg sdocs hglen c.sDoc c.sBlk hnb

theorem cursorStep_ok (cdocs sdocs : List ConnectionStream) (cur : Cursor) (b : SpecBlock)
    (cur1 : Cursor) (hC : ∀ s ∈ cdocs, s.blocksIndexes ≠ [])
    (hS : ∀ s ∈ sdocs, s.blocksIndexes ≠ [])
    (hstep : cursorStep cdocs sdocs cur = some (b, cur1)) : CursorOk cdocs sdocs cur1 := by
  unfold cursorStep at hstep
  split at hstep
  case isFalse => exact Option.noConfusion hstep
  case isTrue =>
    split at hstep <;>
      (simp only [Option.some.injEq, Prod.mk.injEq] at hstep
       rw [← hstep.2]
       exact advanceDocs_ok cdocs sdocs hC hS _)

theorem StreamWF_nonempty (docs : List ConnectionStream) (h : ∀ s ∈ docs, StreamWF s) :
    ∀ s ∈ docs, s.blocksIndexes ≠ [] := fun s hs => (h s hs).1

theorem StreamWF_tsLen (docs : List ConnectionStream) (h : ∀ s ∈ docs, StreamWF s) :
    ∀ s ∈ docs, s.blocksTimestamps.length ≤ s.blocksIndexes.length :=
  fun s hs => le_of_eq (h s hs).2.2.2.1

theorem blockSizes_len (docs : List ConnectionStream) :
    ∀ s ∈ docs, (blockSizes s).length ≤ s.blocksIndexes.length := by
  intro s _
  simp [blockSizes]

/-! ## Timestamps of the merged sequence -/

theorem emitSeq_ts_mem (cdocs sdocs : List ConnectionStream)
    (hC : ∀ s ∈ cdocs, StreamWF s) (hS : ∀ s ∈ sdocs, StreamWF s) :
    ∀ (fuel : Nat) (cur : Cursor), CursorOk cdocs sdocs cur →
      ∀ b' ∈ emitSeq cdocs sdocs fuel cur,
        (b'.fromClient = true → b'.timestamp ∈ remTs cdocs cur.cDoc cur.cBlk) ∧
        (b'.fromClient = false → b'.timestamp ∈ remTs sdocs cur.sDoc cur.sBlk) := by
  intro fuel
  induction fuel with
  | zero =>
    intro cur _ b' hb'
    simp [emitSeq] at hb'
  | succ f ih =>
    intro cur hok b' hb'
    cases hstep : cursorStep cdocs sdocs cur with
    | none =>
      rw [show emitSeq cdocs sdocs (f + 1) cur = [] by simp [emitSeq, hstep]] at hb'
      simp at hb'
    | some bc =>
      obtain ⟨b, cur1⟩ := bc
      rw [show emitSeq cdocs sdocs (f + 1) cur = b :: emitSeq cdocs sdocs f cur1 by
        simp [emitSeq, hstep]] at hb'
      have hok1 : CursorOk cdocs sdocs cur1 :=
        cursorStep_ok cdocs sdocs cur b cur1 (StreamWF_nonempty cdocs hC)
          (StreamWF_nonempty sdocs hS) hstep
      rcases cursorStep_cases cdocs sdocs cur b cur1 hok hstep with
        ⟨hbdef, hcur1, hasC, _⟩ | ⟨hbdef, hcur1, hasS, _⟩
      · -- client emission
        have hdlt : cur.cDoc < cdocs.length := hasBlocks_lt cdocs cur.cDoc cur.cBlk hasC
        have hwfd : StreamWF (getStream cdocs cur.cDoc) :=
          hC _ (getStream_mem cdocs cur.cDoc hdlt)
        have hblt : cur.cBlk < (getStream cdocs cur.cDoc).blocksTimestamps.length := by
          have h1 := of_decide_eq_true hasC
          have h2 := hwfd.2.2.2.1
          omega
        have hhead : remTs cdocs cur.cDoc cur.cBlk =
            (getStream cdocs cur.cDoc).blocksTimestamps.getD cur.cBlk 0 ::
              remTs cdocs cur.cDoc (cur.cBlk + 1) :=
          remOf_head _ 0 cdocs cur.cDoc cur.cBlk hblt
        have hc1 : remTs cdocs cur1.cDoc cur1.cBlk = remTs cdocs cur.cDoc (cur.cBlk + 1) := by
          rw [hcur1]
          exact remOf_advanceDocs_c _ rfl cdocs sdocs (StreamWF_tsLen cdocs hC) _
        have hs1 : remTs sdocs cur1.sDoc cur1.sBlk = remTs sdocs cur.sDoc cur.sBlk := by
          rw [hcur1]
          exact remOf_advanceDocs_s _ rfl cdocs sdocs (StreamWF_tsLen sdocs hS) _
        rcases List.mem_cons.mp hb' with rfl | hmem
        · constructor
          · intro _
            rw [hbdef]
            show (getStream cdocs cur.cDoc).blocksTimestamps.getD cur.cBlk 0 ∈ _
            rw [hhead]
            exact List.mem_cons_self _ _
          · intro hfc
            rw [hbdef] at hfc
            exact Bool.noConfusion hfc
        · have hrec := ih cur1 hok1 b' hmem
          constructor
          · intro h
            have h2 := hrec.1 h
            rw [hc1] at h2
            rw [hhead]
            exact List.mem_cons_of_mem _ h2
          · intro h
            have h2 := hrec.2 h
            rw [hs1] at h2
            exact h2
      · -- server emission
        have hdlt : cur.sDoc < sdocs.length := hasBlocks_lt sdocs cur.sDoc cur.sBlk hasS
        have hwfd : StreamWF (getStream sdocs cur.sDoc) :=
          hS _ (getStream_mem sdocs cur.sDoc hdlt)
        have hblt : cur.sBlk < (getStream sdocs cur.sDoc).blocksTimestamps.length := by
          have h1 := of_decide_eq_true hasS
          have h2 := hwfd.2.2.2.1
          omega
        have hhead : remTs sdocs cur.sDoc cur.sBlk =
            (getStream sdocs cur.sDoc).blocksTimestamps.getD cur.sBlk 0 ::
              remTs sdocs cur.sDoc (cur.sBlk + 1) :=
          remOf_head _ 0 sdocs cur.sDoc cur.sBlk hblt
        have hs1 : remTs sdocs cur1.sDoc cur1.sBlk = remTs sdocs cur.sDoc (cur.sBlk + 1) := by
          rw [hcur1]
          exact remOf_advanceDocs_s _ rfl cdocs sdocs (StreamWF_tsLen sdocs hS) _
        have hc1 : remTs cdocs cur1.cDoc cur1.cBlk = remTs cdocs cur.cDoc cur.cBlk := by
          rw [hcur1]
          exact remOf_advanceDocs_c _ rfl cdocs sdocs (StreamWF_tsLen cdocs hC) _
        rcases List.mem_cons.mp hb' with rfl | hmem
        · constructor
          · intro hfc
            rw [hbdef] at hfc
            exact Bool.noConfusion hfc
          · intro _
            rw [hbdef]
            show (getStream sdocs cur.sDoc).blocksTimestamps.getD cur.sBlk 0 ∈ _
            rw [hhead]
            exact List.mem_cons_self _ _
        · have hrec := ih cur1 hok1 b' hmem
          constructor
          · intro h
            have h2 := hrec.1 h
            rw [hc1] at h2
            exact h2
          · intro h
            have h2 := hrec.2 h
            rw [hs1] at h2
            rw [hhead]
            exact List.mem_cons_of_mem _ h2

theorem remTs_zero (docs : List ConnectionStream) (d blk : Nat)
    (hz : streamZero docs d = true) : remTs docs d blk = [] :=
  remOf_zero _ rfl docs d blk hz

theorem tsSideLe_of_lt {t t' : Int} {x y : Bool} (h : t < t') : tsSideLe (t, x) (t', y) :=
  Or.inl h

theorem tsSideLe_client {t t' : Int} {y : Bool} (h : t ≤ t') : tsSideLe (t, true) (t', y) := by
  rcases lt_or_eq_of_le h with h1 | h1
  · exact Or.inl h1
  · exact Or.inr ⟨h1, fun _ => rfl⟩

theorem tsSideLe_server {t t' : Int} (h : t ≤ t') : tsSideLe (t, false) (t', false) := by
  rcases lt_or_eq_of_le h with h1 | h1
  · exact Or.inl h1
  · exact Or.inr ⟨h1, fun hy => hy⟩

theorem chain'_le_head_mem {x : Int} {l : List Int} (h : List.Chain' (· ≤ ·) (x :: l)) :
    ∀ y ∈ l, x ≤ y := by
  have hp := List.chain'_iff_pairwise.mp h
  exact (List.pairwise_cons.mp hp).1

theorem emitSeq_pairwise (cdocs sdocs : List ConnectionStream)
    (hC : ∀ s ∈ cdocs, StreamWF s) (hS : ∀ s ∈ sdocs, StreamWF s) :
    ∀ (fuel : Nat) (cur : Cursor), CursorOk cdocs sdocs cur →
      List.Chain' (· ≤ ·) (remTs cdocs cur.cDoc cur.cBlk) →
      List.Chain' (· ≤ ·) (remTs sdocs cur.sDoc cur.sBlk) →
      List.Pairwise (fun x y => tsSideLe (blockTsSide x) (blockTsSide y))
        (emitSeq cdocs sdocs fuel cur) := by
  intro fuel
  induction fuel with
  | zero =>
    intro cur _ _ _
    simp [emitSeq]
  | succ f ih =>
    intro cur hok hchC hchS
    cases hstep : cursorStep cdocs sdocs cur with
    | none =>
      rw [show emitSeq cdocs sdocs (f + 1) cur = [] by simp [emitSeq, hstep]]
      exact List.Pairwise.nil
    | some bc =>
      obtain ⟨b, cur1⟩ := bc
      rw [show emitSeq cdocs sdocs (f + 1) cur = b :: emitSeq cdocs sdocs f cur1 by
        simp [emitSeq, hstep]]
      have hok1 : CursorOk cdocs sdocs cur1 :=
        cursorStep_ok cdocs sdocs cur b cur1 (StreamWF_nonempty cdocs hC)
          (StreamWF_nonempty sdocs hS) hstep
      have hmem := emitSeq_ts_mem cdocs sdocs hC hS f cur1 hok1
      rcases cursorStep_cases cdocs sdocs cur b cur1 hok hstep with
        ⟨hbdef, hcur1, hasC, hties⟩ | ⟨hbdef, hcur1, hasS, hties⟩
      · -- client emission
        have hdlt : cur.cDoc < cdocs.length := hasBlocks_lt cdocs cur.cDoc cur.cBlk hasC
        have hwfd : StreamWF (getStream cdocs cur.cDoc) :=
          hC _ (getStream_mem cdocs cur.cDoc hdlt)
        have hblt : cur.cBlk < (getStream cdocs cur.cDoc).blocksTimestamps.length := by
          have h1 := of_decide_eq_true hasC
          have h2 := hwfd.2.2.2.1
          omega
        have hhead : remTs cdocs cur.cDoc cur.cBlk =
            (getStream cdocs cur.cDoc).blocksTimestamps.getD cur.cBlk 0 ::
              remTs cdocs cur.cDoc (cur.cBlk + 1) :=
          remOf_head _ 0 cdocs cur.cDoc cur.cBlk hblt
        have hc1 : remTs cdocs cur1.cDoc cur1.cBlk = remTs cdocs cur.cDoc (cur.cBlk + 1) := by
          rw [hcur1]
          exact remOf_advanceDocs_c _ rfl cdocs sdocs (StreamWF_tsLen cdocs hC) _
        have hs1 : remTs sdocs cur1.sDoc cur1.sBlk = remTs sdocs cur.sDoc cur.sBlk := by
          rw [hcur1]
          exact remOf_advanceDocs_s _ rfl cdocs sdocs (StreamWF_tsLen sdocs hS) _
        have hchC1 : List.Chain' (· ≤ ·) (remTs cdocs cur1.cDoc cur1.cBlk) := by
          rw [hc1]
          have h := hchC
          rw [hhead] at h
          exact h.tail
        have hchS1 : List.Chain' (· ≤ ·) (remTs sdocs cur1.sDoc cur1.sBlk) := by
          rw [hs1]
          exact hchS
        refine List.Pairwise.cons ?_ (ih cur1 hok1 hchC1 hchS1)
        intro b' hb'
        have hb'mem := hmem b' hb'
        have hheadle : ∀ y ∈ remTs cdocs cur.cDoc (cur.cBlk + 1),
            (getStream cdocs cur.cDoc).blocksTimestamps.getD cur.cBlk 0 ≤ y := by
          have h := hchC
          rw [hhead] at h
          exact chain'_le_head_mem h
        have hbts : b.timestamp = (getStream cdocs cur.cDoc).blocksTimestamps.getD cur.cBlk 0 := by
          rw [hbdef]
          rfl
        have hbfc : b.fromClient = true := by
          rw [hbdef]
          rfl
        cases hfc : b'.fromClient
        · -- later server block
          have h2 := hb'mem.2 hfc
          rw [hs1] at h2
          by_cases hasS : hasBlocks sdocs cur.sDoc cur.sBlk = true
          · have hdlts : cur.sDoc < sdocs.length := hasBlocks_lt sdocs cur.sDoc cur.sBlk hasS
            have hwfs : StreamWF (getStream sdocs cur.sDoc) :=
              hS _ (getStream_mem sdocs cur.sDoc hdlts)
            have hblts : cur.sBlk < (getStream sdocs cur.sDoc).blocksTimestamps.length := by
              have h1 := of_decide_eq_true hasS
              have h2 := hwfs.2.2.2.1
              omega
            have hheads : remTs sdocs cur.sDoc cur.sBlk =
                (getStream sdocs cur.sDoc).blocksTimestamps.getD cur.sBlk 0 ::
                  remTs sdocs cur.sDoc (cur.sBlk + 1) :=
              remOf_head _ 0 sdocs cur.sDoc cur.sBlk hblts
            have hle1 := hties hasS
            have hle2 : (getStream sdocs cur.sDoc).blocksTimestamps.getD cur.sBlk 0 ≤
                b'.timestamp := by
              rw [hheads] at h2
              rcases List.mem_cons.mp h2 with he | hm
              · omega
              · have h := hchS
                rw [hheads] at h
                exact chain'_le_head_mem h _ hm
            show tsSideLe (b.timestamp, b.fromClient) (b'.timestamp, b'.fromClient)
            rw [hbts, hbfc]
            exact tsSideLe_client (by omega)
          · have hSf : hasBlocks sdocs cur.sDoc cur.sBlk = false := by
              revert hasS
              cases hasBlocks sdocs cur.sDoc cur.sBlk <;> simp
            rcases hok.2 with hz | hb2
            · rw [remTs_zero sdocs cur.sDoc cur.sBlk hz] at h2
              exact absurd h2 (List.not_mem_nil _)
            · rw [hb2] at hSf
              exact Bool.noConfusion hSf
        · -- later client block
          have h2 := hb'mem.1 hfc
          rw [hc1] at h2
          show tsSideLe (b.timestamp, b.fromClient) (b'.timestamp, b'.fromClient)
          rw [hbts, hbfc]
          exact tsSideLe_client (hheadle _ h2)
      · -- server emission
        have hdlt : cur.sDoc < sdocs.length := hasBlocks_lt sdocs cur.sDoc cur.sBlk hasS
        have hwfd : StreamWF (getStream sdocs cur.sDoc) :=
          hS _ (getStream_mem sdocs cur.sDoc hdlt)
        have hblt : cur.sBlk < (getStream sdocs cur.sDoc).blocksTimestamps.length := by
          have h1 := of_decide_eq_true hasS
          have h2 := hwfd.2.2.2.1
          omega
        have hhead : remTs sdocs cur.sDoc cur.sBlk =
            (getStream sdocs cur.sDoc).blocksTimestamps.getD cur.sBlk 0 ::
              remTs sdocs cur.sDoc (cur.sBlk + 1) :=
          remOf_head _ 0 sdocs cur.sDoc cur.sBlk hblt
        have hs1 : remTs sdocs cur1.sDoc cur1.sBlk = remTs sdocs cur.sDoc (cur.sBlk + 1) := by
          rw [hcur1]
          exact remOf_advanceDocs_s _ rfl cdocs sdocs (StreamWF_tsLen sdocs hS) _
        have hc1 : remTs cdocs cur1.cDoc cur1.cBlk = remTs cdocs cur.cDoc cur.cBlk := by
          rw [hcur1]
          exact remOf_advanceDocs_c _ rfl cdocs sdocs (StreamWF_tsLen cdocs hC) _
        have hchS1 : List.Chain' (· ≤ ·) (remTs sdocs cur1.sDoc cur1.sBlk) := by
          rw [hs1]
          have h := hchS
          rw [hhead] at h
          exact h.tail
        have hchC1 : List.Chain' (· ≤ ·) (remTs cdocs cur1.cDoc cur1.cBlk) := by
          rw [hc1]
          exact hchC
        refine List.Pairwise.cons ?_ (ih cur1 hok1 hchC1 hchS1)
        intro b' hb'
        have hb'mem := hmem b' hb'
        have hbts : b.timestamp = (getStream sdocs cur.sDoc).blocksTimestamps.getD cur.sBlk 0 := by
          rw [hbdef]
          rfl
        have hbfc : b.fromClient = false := by
          rw [hbdef]
          rfl
        cases hfc : b'.fromClient
        · -- later server block
          have h2 := hb'mem.2 hfc
          rw [hs1] at h2
          have h := hchS
          rw [hhead] at h
          have hle := chain'_le_head_mem h _ h2
          show tsSideLe (b.timestamp, b.fromClient) (b'.timestamp, b'.fromClient)
          rw [hbts, hbfc, hfc]
          exact tsSideLe_server hle
        · -- later client block: strictly later because the server won the comparison
          have h2 := hb'mem.1 hfc
          rw [hc1] at h2
          by_cases hasC : hasBlocks cdocs cur.cDoc cur.cBlk = true
          · have hdltc : cur.cDoc < cdocs.length := hasBlocks_lt cdocs cur.cDoc cur.cBlk hasC
            have hwfc : StreamWF (getStream cdocs cur.cDoc) :=
              hC _ (getStream_mem cdocs cur.cDoc hdltc)
            have hbltc : cur.cBlk < (getStream cdocs cur.cDoc).blocksTimestamps.length := by
              have h1 := of_decide_eq_true hasC
              have h2 := hwfc.2.2.2.1
              omega
            have hheadc : remTs cdocs cur.cDoc cur.cBlk =
                (getStream cdocs cur.cDoc).blocksTimestamps.getD cur.cBlk 0 ::
                  remTs cdocs cur.cDoc (cur.cBlk + 1) :=
              remOf_head _ 0 cdocs cur.cDoc cur.cBlk hbltc
            have hlt := hties hasC
            have hle2 : (getStream cdocs cur.cDoc).blocksTimestamps.getD cur.cBlk 0 ≤
                b'.timestamp := by
              rw [hheadc] at h2
              rcases List.mem_cons.mp h2 with he | hm
              · omega
              · have h := hchC
                rw [hheadc] at h
                exact chain'_le_head_mem h _ hm
            show tsSideLe (b.timestamp, b.fromClient) (b'.timestamp, b'.fromClient)
            rw [hbts, hbfc]
            exact tsSideLe_of_lt (by omega)
          · have hCf : hasBlocks cdocs cur.cDoc cur.cBlk = false := by
              revert hasC
              cases hasBlocks cdocs cur.cDoc cur.cBlk <;> simp
            rcases hok.1 with hz | hb2
            · rw [remTs_zero cdocs cur.cDoc cur.cBlk hz] at h2
              exact absurd h2 (List.not_mem_nil _)
            · rw [hb2] at hCf
              exact Bool.noConfusion hCf

theorem mergedBlocks_pairwise (cdocs sdocs : List ConnectionStream)
    (hC : SideWF cdocs) (hS : SideWF sdocs) :
    List.Pairwise (fun x y => tsSideLe (blockTsSide x) (blockTsSide y))
      (mergedBlocks cdocs sdocs) := by
  unfold mergedBlocks
  refine emitSeq_pairwise cdocs sdocs hC.1 hS.1 _ initCursor
    (initCursor_ok cdocs sdocs (StreamWF_nonempty cdocs hC.1) (StreamWF_nonempty sdocs hS.1))
    ?_ ?_
  · show List.Chain' (· ≤ ·) (remTs cdocs 0 0)
    rw [show remTs cdocs 0 0 = cdocs.flatMap (fun s => s.blocksTimestamps) from
      remOf_init _ rfl cdocs]
    exact hC.2
  · show List.Chain' (· ≤ ·) (remTs sdocs 0 0)
    rw [show remTs sdocs 0 0 = sdocs.flatMap (fun s => s.blocksTimestamps) from
      remOf_init _ rfl sdocs]
    exact hS.2

/-! ## Indexes of the merged sequence -/

theorem remIdx_zero (docs : List ConnectionStream) (d blk : Nat)
    (hz : streamZero docs d = true) : remIdx docs d blk = [] :=
  remOf_zero _ rfl docs d blk hz

theorem emitSeq_side_indexes (cdocs sdocs : List ConnectionStream)
    (hC : ∀ s ∈ cdocs, StreamWF s) (hS : ∀ s ∈ sdocs, StreamWF s) :
    ∀ (fuel : Nat) (cur : Cursor), CursorOk cdocs sdocs cur →
      curMeasure cdocs sdocs cur ≤ fuel →
      ((emitSeq cdocs sdocs fuel cur).filter (fun b => b.fromClient)).map (fun b => b.index) =
        remIdx cdocs cur.cDoc cur.cBlk ∧
      ((emitSeq cdocs sdocs fuel cur).filter (fun b => !b.fromClient)).map (fun b => b.index) =
        remIdx sdocs cur.sDoc cur.sBlk := by
  intro fuel
  induction fuel with
  | zero =>
    intro cur _ hfuel
    have hnone := cursorStep_none_of_measure_zero cdocs sdocs cur (Nat.le_zero.mp hfuel)
    have hz := (cursorStep_eq_none_iff cdocs sdocs cur).mp hnone
    have hz2 := (Bool.and_eq_true _ _).mp hz
    constructor
    · rw [remIdx_zero cdocs cur.cDoc cur.cBlk hz2.1]
      rfl
    · rw [remIdx_zero sdocs cur.sDoc cur.sBlk hz2.2]
      rfl
  | succ f ih =>
    intro cur hok hfuel
    cases hstep : cursorStep cdocs sdocs cur with
    | none =>
      have hz := (cursorStep_eq_none_iff cdocs sdocs cur).mp hstep
      have hz2 := (Bool.and_eq_true _ _).mp hz
      rw [show emitSeq cdocs sdocs (f + 1) cur = [] by simp [emitSeq, hstep]]
      constructor
      · rw [remIdx_zero cdocs cur.cDoc cur.cBlk hz2.1]
        rfl
      · rw [remIdx_zero sdocs cur.sDoc cur.sBlk hz2.2]
        rfl
    | some bc =>
      obtain ⟨b, cur1⟩ := bc
      rw [show emitSeq cdocs sdocs (f + 1) cur = b :: emitSeq cdocs sdocs f cur1 by
        simp [emitSeq, hstep]]
      have hmlt := cursorStep_measure_lt cdocs sdocs cur b cur1 hstep
      have hok1 : CursorOk cdocs sdocs cur1 :=
        cursorStep_ok cdocs sdocs cur b cur1 (StreamWF_nonempty cdocs hC)
          (StreamWF_nonempty sdocs hS) hstep
      have hrec := ih cur1 hok1 (by omega)
      rcases cursorStep_cases cdocs sdocs cur b cur1 hok hstep with
        ⟨hbdef, hcur1, hasC, _⟩ | ⟨hbdef, hcur1, hasS, _⟩
      · -- client emission
        have hbfc : b.fromClient = true := by rw [hbdef]; rfl
        have hbidx : b.index = (getStream cdocs cur.cDoc).blocksIndexes.getD cur.cBlk 0 := by
          rw [hbdef]; rfl
        have hhead : remIdx cdocs cur.cDoc cur.cBlk =
            (getStream cdocs cur.cDoc).blocksIndexes.getD cur.cBlk 0 ::
              remIdx cdocs cur.cDoc (cur.cBlk + 1) :=
          remOf_head _ 0 cdocs cur.cDoc cur.cBlk (of_decide_eq_true hasC)
        have hc1 : remIdx cdocs cur1.cDoc cur1.cBlk = remIdx cdocs cur.cDoc (cur.cBlk + 1) := by
          rw [hcur1]
          exact remOf_advanceDocs_c _ rfl cdocs sdocs (fun s _ => le_refl _) _
        have hs1 : remIdx sdocs cur1.sDoc cur1.sBlk = remIdx sdocs cur.sDoc cur.sBlk := by
          rw [hcur1]
          exact remOf_advanceDocs_s _ rfl cdocs sdocs (fun s _ => le_refl _) _
        rw [List.filter_cons, List.filter_cons, hbfc]
        constructor
        · simp only [if_pos, List.map_cons]
          rw [hbidx, hhead, hrec.1, hc1]
        · simp only [Bool.not_true, Bool.false_eq_true, if_false]
          rw [hrec.2, hs1]
      · -- server emission
        have hbfc : b.fromClient = false := by rw [hbdef]; rfl
        have hbidx : b.index = (getStream sdocs cur.sDoc).blocksIndexes.getD cur.sBlk 0 := by
          rw [hbdef]; rfl
        have hhead : remIdx sdocs cur.sDoc cur.sBlk =
            (getStream sdocs cur.sDoc).blocksIndexes.getD cur.sBlk 0 ::
              remIdx sdocs cur.sDoc (cur.sBlk + 1) :=
          remOf_head _ 0 sdocs cur.sDoc cur.sBlk (of_decide_eq_true hasS)
        have hs1 : remIdx sdocs cur1.sDoc cur1.sBlk = remIdx sdocs cur.sDoc (cur.sBlk + 1) := by
          rw [hcur1]
          exact remOf_advanceDocs_s _ rfl cdocs sdocs (fun s _ => le_refl _) _
        have hc1 : remIdx cdocs cur1.cDoc cur1.cBlk = remIdx cdocs cur.cDoc cur.cBlk := by
          rw [hcur1]
          exact remOf_advanceDocs_c _ rfl cdocs sdocs (fun s _ => le_refl _) _
        rw [List.filter_cons, List.filter_cons, hbfc]
        constructor
        · simp only [Bool.false_eq_true, if_false]
          rw [hrec.1, hc1]
        · simp only [Bool.not_false, if_pos, List.map_cons]
          rw [hbidx, hhead, hrec.2, hs1]

theorem mergedBlocks_side_indexes (cdocs sdocs : List ConnectionStream)
    (hC : ∀ s ∈ cdocs, StreamWF s) (hS : ∀ s ∈ sdocs, StreamWF s) :
    ((mergedBlocks cdocs sdocs).filter (fun b => b.fromClient)).map (fun b => b.index) =
      cdocs.flatMap (fun s => s.blocksIndexes) ∧
    ((mergedBlocks cdocs sdocs).filter (fun b => !b.fromClient)).map (fun b => b.index) =
      sdocs.flatMap (fun s => s.blocksIndexes) := by
  have h := emitSeq_side_indexes cdocs sdocs hC hS (readerFuel cdocs sdocs) initCursor
    (initCursor_ok cdocs sdocs (StreamWF_nonempty cdocs hC) (StreamWF_nonempty sdocs hS))
    (le_of_lt (curMeasure_init_lt_readerFuel cdocs sdocs))
  constructor
  · rw [show mergedBlocks cdocs sdocs =
      emitSeq cdocs sdocs (readerFuel cdocs sdocs) initCursor from rfl, h.1]
    exact remOf_init _ rfl cdocs
  · rw [show mergedBlocks cdocs sdocs =
      emitSeq cdocs sdocs (readerFuel cdocs sdocs) initCursor from rfl, h.2]
    exact remOf_init _ rfl sdocs


/-! ## Timestamp projection through the payload assembly -/

theorem flagged_map_tsSide (parse : List Nat → Metadata)
    (decode : String → List Nat → List Nat) (fmt : String) (P : List SpecBlock) :
    ((runsOf P).flatMap (flagRun parse decode fmt)).map payloadTsSide =
      P.map blockTsSide := by
  have h := congrArg
    (List.map (fun t : Bool × List Nat × Nat × Int × Bool × List RegexSlice =>
      (t.2.2.2.1, t.1)))
    (flagged_map_payloadData parse decode fmt P)
  rw [List.map_map, List.map_map] at h
  exact h

theorem assemble_tsSide_sublist (parse : List Nat → Metadata)
    (decode : String → List Nat → List Nat) (fmt : String) (skip bound : Nat)
    (E : List SpecBlock) :
    ((assemble parse decode fmt skip bound E).map payloadTsSide).Sublist
      (E.map blockTsSide) := by
  have h1 : ((assemble parse decode fmt skip bound E).map payloadTsSide).Sublist
      (((runsOf (cutThrough bound E)).flatMap (flagRun parse decode fmt)).map
        payloadTsSide) :=
    List.Sublist.map payloadTsSide
      (zipFilter_fst_sublist (fun b => decide (skip < b.endIdx)) _ _)
  rw [flagged_map_tsSide] at h1
  exact h1.trans (List.Sublist.map blockTsSide (cutThrough_sublist bound E))

/-! ## Payload data of the paginated output -/

theorem zipFilter_map_eq {γ : Type} (c : SpecBlock → Bool) (g1 : Payload → γ)
    (g2 : SpecBlock → γ) :
    ∀ (l1 : List Payload) (l2 : List SpecBlock), l1.map g1 = l2.map g2 →
      ((((l1.zip l2).filter (fun pb => c pb.2)).map Prod.fst).map g1) =
        (l2.filter c).map g2 := by
  intro l1
  induction l1 with
  | nil =>
    intro l2 h
    have h2 : l2 = [] := by
      cases l2 with
      | nil => rfl
      | cons b t => simp at h
    subst h2
    rfl
  | cons p t ih =>
    intro l2 h
    cases l2 with
    | nil => simp at h
    | cons b t2 =>
      simp only [List.map_cons, List.cons.injEq] at h
      obtain ⟨hpb, hrest⟩ := h
      rw [List.zip_cons_cons, List.filter_cons, List.filter_cons]
      by_cases hc : c b = true
      · rw [show c (p, b).2 = true from hc]
        simp [hpb, ih t2 hrest]
      · have hc' : c b = false := by simpa using hc
        rw [show c (p, b).2 = false from hc']
        simpa using ih t2 hrest

/-! ## Bounds on the running global offset -/

theorem advanceDocs_gIdx (cdocs sdocs : List ConnectionStream) (cur : Cursor) :
    (advanceDocs cdocs sdocs cur).gIdx = cur.gIdx := by
  unfold advanceDocs
  by_cases h1 : hasBlocks cdocs cur.cDoc cur.cBlk <;>
    by_cases h2 : hasBlocks sdocs cur.sDoc cur.sBlk <;>
    simp [h1, h2]

theorem blockSizes_getD (s : ConnectionStream) (blk : Nat)
    (h : blk < s.blocksIndexes.length) : (blockSizes s).getD blk 0 = blockSize s blk := by
  have hlen : blk < (blockSizes s).length := by simpa [blockSizes] using h
  rw [List.getD_eq_getElem?_getD, List.getElem?_eq_getElem hlen, Option.getD_some]
  simp [blockSizes]

theorem blockSize_pos (s : ConnectionStream) (hwf : StreamWF s) (blk : Nat)
    (hb : blk < s.blocksIndexes.length) : 0 < blockSize s blk := by
  obtain ⟨-, hch, hbound, -, -⟩ := hwf
  unfold blockSize
  by_cases h1 : blk + 1 < s.blocksIndexes.length
  · rw [if_pos h1]
    have hlt : s.blocksIndexes.getD blk 0 < s.blocksIndexes.getD (blk + 1) 0 := by
      have hg := List.chain'_iff_get.mp hch blk (by omega)
      rw [List.getD_eq_getElem?_getD, List.getElem?_eq_getElem hb, Option.getD_some,
        List.getD_eq_getElem?_getD, List.getElem?_eq_getElem h1, Option.getD_some]
      simpa using hg
    omega
  · rw [if_neg h1]
    have hmem : s.blocksIndexes.getD blk 0 ∈ s.blocksIndexes := by
      rw [List.getD_eq_getElem?_getD, List.getElem?_eq_getElem hb, Option.getD_some]
      exact List.getElem_mem hb
    have := hbound _ hmem
    omega

theorem remSz_head (docs : List ConnectionStream) (d blk : Nat)
    (hb : hasBlocks docs d blk = true) :
    remSz docs d blk = blockSize (getStream docs d) blk :: remSz docs d (blk + 1) := by
  have hb' : blk < (getStream docs d).blocksIndexes.length := of_decide_eq_true hb
  have hlen : blk < (blockSizes (getStream docs d)).length := by
    simpa [blockSizes] using hb'
  have h := remOf_head blockSizes 0 docs d blk hlen
  rw [blockSizes_getD _ _ hb'] at h
  exact h

theorem emitSeq_endIdx_bounds (cdocs sdocs : List ConnectionStream)
    (hC : ∀ s ∈ cdocs, StreamWF s) (hS : ∀ s ∈ sdocs, StreamWF s) :
    ∀ (fuel : Nat) (cur : Cursor), CursorOk cdocs sdocs cur →
      cur.gIdx + (remSz cdocs cur.cDoc cur.cBlk).sum +
        (remSz sdocs cur.sDoc cur.sBlk).sum < U64 →
      ∀ b' ∈ emitSeq cdocs sdocs fuel cur,
        cur.gIdx < b'.endIdx ∧
          b'.endIdx ≤ cur.gIdx + (remSz cdocs cur.cDoc cur.cBlk).sum +
            (remSz sdocs cur.sDoc cur.sBlk).sum := by
  intro fuel
  induction fuel with
  | zero =>
    intro cur _ _ b' hb'
    simp [emitSeq] at hb'
  | succ f ih =>
    intro cur hok hov b' hb'
    cases hstep : cursorStep cdocs sdocs cur with
    | none =>
      rw [show emitSeq cdocs sdocs (f + 1) cur = [] by simp [emitSeq, hstep]] at hb'
      simp at hb'
    | some bc =>
      obtain ⟨b, cur1⟩ := bc
      rw [show emitSeq cdocs sdocs (f + 1) cur = b :: emitSeq cdocs sdocs f cur1 by
        simp [emitSeq, hstep]] at hb'
      have hok1 : CursorOk cdocs sdocs cur1 :=
        cursorStep_ok cdocs sdocs cur b cur1 (StreamWF_nonempty cdocs hC)
          (StreamWF_nonempty sdocs hS) hstep
      rcases cursorStep_cases cdocs sdocs cur b cur1 hok hstep with
        ⟨hbdef, hcur1, hasC, -⟩ | ⟨hbdef, hcur1, hasS, -⟩
      · have hd : cur.cDoc < cdocs.length := hasBlocks_lt cdocs cur.cDoc cur.cBlk hasC
        have hwf : StreamWF (getStream cdocs cur.cDoc) :=
          hC _ (getStream_mem cdocs cur.cDoc hd)
        have hblk : cur.cBlk < (getStream cdocs cur.cDoc).blocksIndexes.length :=
          of_decide_eq_true hasC
        have hpos : 0 < blockSize (getStream cdocs cur.cDoc) cur.cBlk :=
          blockSize_pos _ hwf cur.cBlk hblk
        have hsum : (remSz cdocs cur.cDoc cur.cBlk).sum =
            blockSize (getStream cdocs cur.cDoc) cur.cBlk +
              (remSz cdocs cur.cDoc (cur.cBlk + 1)).sum := by
          rw [remSz_head cdocs cur.cDoc cur.cBlk hasC, List.sum_cons]
        have hnw : cur.gIdx + blockSize (getStream cdocs cur.cDoc) cur.cBlk < U64 := by
          omega
        have hend : b.endIdx = cur.gIdx + blockSize (getStream cdocs cur.cDoc) cur.cBlk := by
          rw [hbdef]
          show (cur.gIdx + blockSize (getStream cdocs cur.cDoc) cur.cBlk) % U64 = _
          exact Nat.mod_eq_of_lt hnw
        have hg1 : cur1.gIdx = cur.gIdx + blockSize (getStream cdocs cur.cDoc) cur.cBlk := by
          rw [hcur1, advanceDocs_gIdx]
          show (cur.gIdx + blockSize (getStream cdocs cur.cDoc) cur.cBlk) % U64 = _
          exact Nat.mod_eq_of_lt hnw
        have hc1 : remSz cdocs cur1.cDoc cur1.cBlk = remSz cdocs cur.cDoc (cur.cBlk + 1) := by
          rw [hcur1]
          exact remOf_advanceDocs_c blockSizes rfl cdocs sdocs (blockSizes_len cdocs) _
        have hs1 : remSz sdocs cur1.sDoc cur1.sBlk = remSz sdocs cur.sDoc cur.sBlk := by
          rw [hcur1]
          exact remOf_advanceDocs_s blockSizes rfl cdocs sdocs (blockSizes_len sdocs) _
        rcases List.mem_cons.mp hb' with hb1 | hb2
        · subst hb1
          rw [hend]
          omega
        · have hov1 : cur1.gIdx + (remSz cdocs cur1.cDoc cur1.cBlk).sum +
              (remSz sdocs cur1.sDoc cur1.sBlk).sum < U64 := by
            rw [hg1, hc1, hs1]
            omega
          have hih := ih cur1 hok1 hov1 b' hb2
          rw [hg1, hc1, hs1] at hih
          omega
      · have hd : cur.sDoc < sdocs.length := hasBlocks_lt sdocs cur.sDoc cur.sBlk hasS
        have hwf : StreamWF (getStream sdocs cur.sDoc) :=
          hS _ (getStream_mem sdocs cur.sDoc hd)
        have hblk : cur.sBlk < (getStream sdocs cur.sDoc).blocksIndexes.length :=
          of_decide_eq_true hasS
        have hpos : 0 < blockSize (getStream sdocs cur.sDoc) cur.sBlk :=
          blockSize_pos _ hwf cur.sBlk hblk
        have hsum : (remSz sdocs cur.sDoc cur.sBlk).sum =
            blockSize (getStream sdocs cur.sDoc) cur.sBlk +
              (remSz sdocs cur.sDoc (cur.sBlk + 1)).sum := by
          rw [remSz_head sdocs cur.sDoc cur.sBlk hasS, List.sum_cons]
        have hnw : cur.gIdx + blockSize (getStream sdocs cur.sDoc) cur.sBlk < U64 := by
          omega
        have hend : b.endIdx = cur.gIdx + blockSize (getStream sdocs cur.sDoc) cur.sBlk := by
          rw [hbdef]
          show (cur.gIdx + blockSize (getStream sdocs cur.sDoc) cur.sBlk) % U64 = _
          exact Nat.mod_eq_of_lt hnw
        have hg1 : cur1.gIdx = cur.gIdx + blockSize (getStream sdocs cur.sDoc) cur.sBlk := by
          rw [hcur1, advanceDocs_gIdx]
          show (cur.gIdx + blockSize (getStream sdocs cur.sDoc) cur.sBlk) % U64 = _
          exact Nat.mod_eq_of_lt hnw
        have hc1 : remSz cdocs cur1.cDoc cur1.cBlk = remSz cdocs cur.cDoc cur.cBlk := by
          rw [hcur1]
          exact remOf_advanceDocs_c blockSizes rfl cdocs sdocs (blockSizes_len cdocs) _
        have hs1 : remSz sdocs cur1.sDoc cur1.sBlk = remSz sdocs cur.sDoc (cur.sBlk + 1) := by
          rw [hcur1]
          exact remOf_advanceDocs_s blockSizes rfl cdocs sdocs (blockSizes_len sdocs) _
        rcases List.mem_cons.mp hb' with hb1 | hb2
        · subst hb1
          rw [hend]
          omega
        · have hov1 : cur1.gIdx + (remSz cdocs cur1.cDoc cur1.cBlk).sum +
              (remSz sdocs cur1.sDoc cur1.sBlk).sum < U64 := by
            rw [hg1, hc1, hs1]
            omega
          have hih := ih cur1 hok1 hov1 b' hb2
          rw [hg1, hc1, hs1] at hih
          omega

theorem remSz_init_sum (docs : List ConnectionStream) :
    (remSz docs 0 0).sum = totalSizes docs := by
  rw [show remSz docs 0 0 = docs.flatMap blockSizes from remOf_init blockSizes rfl docs]
  rw [List.flatMap_def, List.sum_flatten, List.map_map]
  rfl

theorem mergedBlocks_endIdx_bounds (cdocs sdocs : List ConnectionStream)
    (hC : ∀ s ∈ cdocs, StreamWF s) (hS : ∀ s ∈ sdocs, StreamWF s)
    (hov : totalSizes cdocs + totalSizes sdocs < U64) :
    ∀ b' ∈ mergedBlocks cdocs sdocs,
      0 < b'.endIdx ∧ b'.endIdx ≤ totalSizes cdocs + totalSizes sdocs := by
  intro b' hb'
  have hov0 : initCursor.gIdx + (remSz cdocs initCursor.cDoc initCursor.cBlk).sum +
      (remSz sdocs initCursor.sDoc initCursor.sBlk).sum < U64 := by
    show 0 + (remSz cdocs 0 0).sum + (remSz sdocs 0 0).sum < U64
    rw [remSz_init_sum, remSz_init_sum]
    omega
  have h := emitSeq_endIdx_bounds cdocs sdocs hC hS (readerFuel cdocs sdocs) initCursor
    (initCursor_ok cdocs sdocs (StreamWF_nonempty cdocs hC) (StreamWF_nonempty sdocs hS))
    hov0 b' hb'
  have he : initCursor.gIdx + (remSz cdocs initCursor.cDoc initCursor.cBlk).sum +
      (remSz sdocs initCursor.sDoc initCursor.sBlk).sum =
      totalSizes cdocs + totalSizes sdocs := by
    show 0 + (remSz cdocs 0 0).sum + (remSz sdocs 0 0).sum = _
    rw [remSz_init_sum, remSz_init_sum]
    omega
  rw [he] at h
  exact ⟨h.1, h.2⟩

/-! ## The whole output when skip is zero and the limit is ample -/

theorem cutThrough_all (bound : Nat) :
    ∀ (E : List SpecBlock), (∀ b ∈ E, b.endIdx ≤ bound) → cutThrough bound E = E := by
  intro E
  induction E with
  | nil => intro _; rfl
  | cons b rest ih =>
    intro h
    show (if bound < b.endIdx then [b] else b :: cutThrough bound rest) = b :: rest
    rw [if_neg (by have := h b (List.mem_cons_self b rest); omega),
      ih (fun x hx => h x (List.mem_cons_of_mem b hx))]

theorem flagAndPick_all (parse : List Nat → Metadata) (decode : String → List Nat → List Nat)
    (fmt : String) (skip : Nat) (P : List SpecBlock) (h : ∀ b ∈ P, skip < b.endIdx) :
    flagAndPick parse decode fmt skip P = (runsOf P).flatMap (flagRun parse decode fmt) := by
  have hall : ∀ pb ∈ (((runsOf P).flatMap (flagRun parse decode fmt)).zip P),
      (fun pb : Payload × SpecBlock => decide (skip < pb.2.endIdx)) pb = true := by
    intro pb hpb
    obtain ⟨p, bb⟩ := pb
    exact decide_eq_true (h bb (List.of_mem_zip hpb).2)
  unfold flagAndPick
  rw [List.filter_eq_self.mpr hall,
    List.map_fst_zip _ _ (le_of_eq (flagged_length parse decode fmt P))]

theorem GetConnectionPayload_full (cdocs sdocs : List ConnectionStream)
    (parse : List Nat → Metadata) (decode : String → List Nat → List Nat) (fmt : String)
    (lim : Nat) (hC : ∀ s ∈ cdocs, StreamWF s) (hS : ∀ s ∈ sdocs, StreamWF s)
    (hpos : 0 < lim) (hlim : totalSizes cdocs + totalSizes sdocs ≤ lim) (hu : lim < U64) :
    GetConnectionPayload cdocs sdocs parse decode { format := fmt, skip := 0, limit := lim } =
      (runsOf (mergedBlocks cdocs sdocs)).flatMap (flagRun parse decode fmt) := by
  have hbounds := mergedBlocks_endIdx_bounds cdocs sdocs hC hS (by omega)
  rw [GetConnectionPayload_eq_assemble]
  show assemble parse decode fmt 0
    ((0 + (if lim ≤ 0 then DefaultQueryFormatLimit else lim)) % U64)
    (mergedBlocks cdocs sdocs) = _
  rw [if_neg (by omega), show ((0 : Nat) + lim) % U64 = lim from by
    rw [Nat.zero_add]; exact Nat.mod_eq_of_lt hu]
  unfold assemble
  rw [cutThrough_all lim _ (fun b hb => le_trans (hbounds b hb).2 hlim)]
  exact flagAndPick_all parse decode fmt 0 _ (fun b hb => (hbounds b hb).1)

/-! ## Metadata of every payload of a run -/

theorem flagPayloads_meta (m : Metadata) :
    ∀ (cont : Bool) (l : List Payload),
      (flagPayloads m cont l).map (fun p => p.metadata) = l.map (fun _ => m) := by
  intro cont l
  induction l generalizing cont with
  | nil => rfl
  | cons p ps ih => simp [flagPayloads, setMeta, ih]

theorem flagPayloads_cont_all (m : Metadata) :
    ∀ (l : List Payload),
      (flagPayloads m true l).map (fun p => p.isMetadataContinuation) =
        l.map (fun _ => true) := by
  intro l
  induction l with
  | nil => rfl
  | cons p ps ih => simp [flagPayloads, setMeta, ih]

theorem flagRun_meta (parse : List Nat → Metadata) (decode : String → List Nat → List Nat)
    (fmt : String) (run : List SpecBlock) :
    (flagRun parse decode fmt run).map (fun p => p.metadata) =
      List.replicate run.length (parse (run.flatMap (fun b => b.raw))) := by
  rw [flagRun, flagPayloads_meta, List.map_map]
  rw [show ((fun _ : Payload => parse (run.flatMap (fun b => b.raw))) ∘ blockPayload decode fmt) =
    (fun _ : SpecBlock => parse (run.flatMap (fun b => b.raw))) from rfl]
  exact List.map_const' run _

theorem flagRun_cont (parse : List Nat → Metadata) (decode : String → List Nat → List Nat)
    (fmt : String) (b : SpecBlock) (rest : List SpecBlock) :
    (flagRun parse decode fmt (b :: rest)).map (fun p => p.isMetadataContinuation) =
      false :: List.replicate rest.length true := by
  rw [flagRun, List.map_cons]
  show (setMeta _ false (blockPayload decode fmt b) ::
    flagPayloads _ true (rest.map (blockPayload decode fmt))).map _ = _
  rw [List.map_cons, flagPayloads_cont_all, List.map_map]
  rw [show ((fun _ : Payload => true) ∘ blockPayload decode fmt) =
    (fun _ : SpecBlock => true) from rfl]
  rw [List.map_const' rest true]
  rfl


/-! ## Output under a permuted pattern-match map

The Go `pattern_matches` field is a map iterated in unspecified order;
two runs over the same persisted data may observe permuted entry
orders.  Everything below relates the outputs of two such runs. -/

theorem streamEquiv_refl (s : ConnectionStream) : StreamEquiv s s :=
  ⟨rfl, rfl, rfl, rfl, List.Perm.refl _⟩

theorem getStream_equiv (docs docs' : List ConnectionStream)
    (h : List.Forall₂ StreamEquiv docs docs') (d : Nat) :
    StreamEquiv (getStream docs d) (getStream docs' d) := by
  have hlen := h.length_eq
  by_cases hd : d < docs.length
  · have hd' : d < docs'.length := by omega
    rw [show getStream docs d = docs[d] from by
      simp [getStream, List.getD_eq_getElem?_getD, List.getElem?_eq_getElem hd],
      show getStream docs' d = docs'[d] from by
      simp [getStream, List.getD_eq_getElem?_getD, List.getElem?_eq_getElem hd']]
    exact h.get hd hd'
  · rw [show getStream docs d = emptyStream from List.getD_eq_default _ _ (by omega),
      show getStream docs' d = emptyStream from List.getD_eq_default _ _ (by omega)]
    exact streamEquiv_refl emptyStream

theorem streamZero_congr (docs docs' : List ConnectionStream)
    (h : List.Forall₂ StreamEquiv docs docs') (d : Nat) :
    streamZero docs d = streamZero docs' d := by
  unfold streamZero
  rw [h.length_eq]

theorem hasBlocks_congr (docs docs' : List ConnectionStream)
    (h : List.Forall₂ StreamEquiv docs docs') (d blk : Nat) :
    hasBlocks docs d blk = hasBlocks docs' d blk := by
  unfold hasBlocks
  rw [(getStream_equiv docs docs' h d).2.1]

theorem blockSize_congr (s s' : ConnectionStream) (h : StreamEquiv s s') (blk : Nat) :
    blockSize s blk = blockSize s' blk := by
  unfold blockSize
  rw [h.2.1, h.1]

theorem findMatchesBetween_perm (pm pm' : List (Nat × List (Nat × Nat)))
    (h : pm.Perm pm') (lo hi : Nat) :
    (findMatchesBetween pm lo hi).Perm (findMatchesBetween pm' lo hi) :=
  List.Perm.flatMap_right _ h

theorem blockOf_equiv (s s' : ConnectionStream) (h : StreamEquiv s s')
    (blk sideIdx gIdx : Nat) (fc : Bool) :
    BlockEquiv (blockOf s blk sideIdx gIdx fc) (blockOf s' blk sideIdx gIdx fc) := by
  have hsz : blockSize s blk = blockSize s' blk := blockSize_congr s s' h blk
  obtain ⟨hp, hbi, hbt, hbl, hpm⟩ := h
  refine ⟨rfl, ?_, ?_, ?_, ?_, ?_, ?_, ?_⟩
  · show s.blocksIndexes.getD blk 0 = s'.blocksIndexes.getD blk 0
    rw [hbi]
  · show s.blocksTimestamps.getD blk 0 = s'.blocksTimestamps.getD blk 0
    rw [hbt]
  · show s.blocksLoss.getD blk false = s'.blocksLoss.getD blk false
    rw [hbl]
  · show (s.payload.drop (s.blocksIndexes.getD blk 0)).take (blockSize s blk) =
      (s'.payload.drop (s'.blocksIndexes.getD blk 0)).take (blockSize s' blk)
    rw [hp, hbi, hsz]
  · exact hsz
  · show (gIdx + blockSize s blk) % U64 = (gIdx + blockSize s' blk) % U64
    rw [hsz]
  · show (findMatchesBetween s.patternMatches sideIdx
      ((sideIdx + blockSize s blk) % U64)).Perm
      (findMatchesBetween s'.patternMatches sideIdx ((sideIdx + blockSize s' blk) % U64))
    rw [hsz]
    exact findMatchesBetween_perm _ _ hpm _ _

theorem takeClientCond_congr (cdocs cdocs' sdocs sdocs' : List ConnectionStream)
    (hc : List.Forall₂ StreamEquiv cdocs cdocs') (hs : List.Forall₂ StreamEquiv sdocs sdocs')
    (cur : Cursor) : takeClientCond cdocs sdocs cur = takeClientCond cdocs' sdocs' cur := by
  unfold takeClientCond
  rw [hasBlocks_congr cdocs cdocs' hc cur.cDoc cur.cBlk,
    hasBlocks_congr sdocs sdocs' hs cur.sDoc cur.sBlk,
    (getStream_equiv cdocs cdocs' hc cur.cDoc).2.2.1,
    (getStream_equiv sdocs sdocs' hs cur.sDoc).2.2.1]

theorem advanceDocs_congr (cdocs cdocs' sdocs sdocs' : List ConnectionStream)
    (hc : List.Forall₂ StreamEquiv cdocs cdocs') (hs : List.Forall₂ StreamEquiv sdocs sdocs')
    (cur : Cursor) : advanceDocs cdocs sdocs cur = advanceDocs cdocs' sdocs' cur := by
  have e1 := hasBlocks_congr cdocs cdocs' hc cur.cDoc cur.cBlk
  have e2 := hasBlocks_congr sdocs sdocs' hs cur.sDoc cur.sBlk
  unfold advanceDocs
  by_cases h1 : hasBlocks cdocs cur.cDoc cur.cBlk <;>
    by_cases h2 : hasBlocks sdocs cur.sDoc cur.sBlk <;>
    simp [h1, h2, ← e1, ← e2]

theorem clientMid_congr (cdocs cdocs' : List ConnectionStream)
    (hc : List.Forall₂ StreamEquiv cdocs cdocs') (cur : Cursor) :
    clientMid cdocs cur = clientMid cdocs' cur := by
  unfold clientMid
  rw [blockSize_congr _ _ (getStream_equiv cdocs cdocs' hc cur.cDoc) cur.cBlk]

theorem serverMid_congr (sdocs sdocs' : List ConnectionStream)
    (hs : List.Forall₂ StreamEquiv sdocs sdocs') (cur : Cursor) :
    serverMid sdocs cur = serverMid sdocs' cur := by
  unfold serverMid
  rw [blockSize_congr _ _ (getStream_equiv sdocs sdocs' hs cur.sDoc) cur.sBlk]

theorem cursorStep_congr (cdocs cdocs' sdocs sdocs' : List ConnectionStream)
    (hc : List.Forall₂ StreamEquiv cdocs cdocs') (hs : List.Forall₂ StreamEquiv sdocs sdocs')
    (cur : Cursor) :
    (cursorStep cdocs sdocs cur = none ∧ cursorStep cdocs' sdocs' cur = none) ∨
    (∃ b b' cur1, cursorStep cdocs sdocs cur = some (b, cur1) ∧
      cursorStep cdocs' sdocs' cur = some (b', cur1) ∧ BlockEquiv b b') := by
  unfold cursorStep
  rw [streamZero_congr cdocs cdocs' hc cur.cDoc, streamZero_congr sdocs sdocs' hs cur.sDoc,
    takeClientCond_congr cdocs cdocs' sdocs sdocs' hc hs cur,
    clientMid_congr cdocs cdocs' hc cur, serverMid_congr sdocs sdocs' hs cur,
    advanceDocs_congr cdocs cdocs' sdocs sdocs' hc hs (clientMid cdocs' cur),
    advanceDocs_congr cdocs cdocs' sdocs sdocs' hc hs (serverMid sdocs' cur)]
  split
  · split
    · right
      exact ⟨_, _, _, rfl, rfl, blockOf_equiv _ _ (getStream_equiv cdocs cdocs' hc cur.cDoc)
        cur.cBlk cur.cIdx cur.gIdx true⟩
    · right
      exact ⟨_, _, _, rfl, rfl, blockOf_equiv _ _ (getStream_equiv sdocs sdocs' hs cur.sDoc)
        cur.sBlk cur.sIdx cur.gIdx false⟩
  · left
    exact ⟨rfl, rfl⟩

theorem emitSeq_equiv (cdocs cdocs' sdocs sdocs' : List ConnectionStream)
    (hc : List.Forall₂ StreamEquiv cdocs cdocs') (hs : List.Forall₂ StreamEquiv sdocs sdocs') :
    ∀ (fuel : Nat) (cur : Cursor),
      List.Forall₂ BlockEquiv (emitSeq cdocs sdocs fuel cur)
        (emitSeq cdocs' sdocs' fuel cur) := by
  intro fuel
  induction fuel with
  | zero => intro cur; exact List.Forall₂.nil
  | succ f ih =>
    intro cur
    rcases cursorStep_congr cdocs cdocs' sdocs sdocs' hc hs cur with
      ⟨h1, h2⟩ | ⟨b, b', cur1, h1, h2, hbe⟩
    · rw [show emitSeq cdocs sdocs (f + 1) cur = [] by simp [emitSeq, h1],
        show emitSeq cdocs' sdocs' (f + 1) cur = [] by simp [emitSeq, h2]]
      exact List.Forall₂.nil
    · rw [show emitSeq cdocs sdocs (f + 1) cur = b :: emitSeq cdocs sdocs f cur1 by
        simp [emitSeq, h1],
        show emitSeq cdocs' sdocs' (f + 1) cur = b' :: emitSeq cdocs' sdocs' f cur1 by
        simp [emitSeq, h2]]
      exact List.Forall₂.cons hbe (ih cur1)

theorem totalBlocks_congr (docs docs' : List ConnectionStream)
    (h : List.Forall₂ StreamEquiv docs docs') : totalBlocks docs = totalBlocks docs' := by
  induction h with
  | nil => rfl
  | cons hab htail ihm =>
    unfold totalBlocks at ihm ⊢
    simp only [List.map_cons, List.sum_cons]
    rw [hab.2.1, ihm]

theorem mergedBlocks_equiv (cdocs cdocs' sdocs sdocs' : List ConnectionStream)
    (hc : List.Forall₂ StreamEquiv cdocs cdocs') (hs : List.Forall₂ StreamEquiv sdocs sdocs') :
    List.Forall₂ BlockEquiv (mergedBlocks cdocs sdocs) (mergedBlocks cdocs' sdocs') := by
  unfold mergedBlocks readerFuel
  rw [totalBlocks_congr cdocs cdocs' hc, totalBlocks_congr sdocs sdocs' hs,
    hc.length_eq, hs.length_eq]
  exact emitSeq_equiv cdocs cdocs' sdocs sdocs' hc hs _ initCursor

theorem cutThrough_equiv (bound : Nat) (E E' : List SpecBlock)
    (h : List.Forall₂ BlockEquiv E E') :
    List.Forall₂ BlockEquiv (cutThrough bound E) (cutThrough bound E') := by
  induction h with
  | nil => exact List.Forall₂.nil
  | cons hbe htail ihm =>
    rename_i b b' rest rest'
    have hend : b.endIdx = b'.endIdx := hbe.2.2.2.2.2.2.1
    show List.Forall₂ BlockEquiv (if bound < b.endIdx then [b] else b :: cutThrough bound rest)
      (if bound < b'.endIdx then [b'] else b' :: cutThrough bound rest')
    by_cases hcut : bound < b.endIdx
    · rw [if_pos hcut, if_pos (show bound < b'.endIdx by omega)]
      exact List.Forall₂.cons hbe List.Forall₂.nil
    · rw [if_neg hcut, if_neg (show ¬bound < b'.endIdx by omega)]
      exact List.Forall₂.cons hbe ihm

theorem runSnoc_equiv (acc acc' : List (List SpecBlock) × List SpecBlock)
    (h1 : List.Forall₂ (List.Forall₂ BlockEquiv) acc.1 acc'.1)
    (h2 : List.Forall₂ BlockEquiv acc.2 acc'.2)
    (b b' : SpecBlock) (hbe : BlockEquiv b b') :
    List.Forall₂ (List.Forall₂ BlockEquiv) (runSnoc acc b).1 (runSnoc acc' b').1 ∧
      List.Forall₂ BlockEquiv (runSnoc acc b).2 (runSnoc acc' b').2 := by
  obtain ⟨done, pend⟩ := acc
  obtain ⟨done', pend'⟩ := acc'
  cases h2 with
  | nil => exact ⟨h1, List.Forall₂.cons hbe List.Forall₂.nil⟩
  | cons hpe htl =>
    rename_i p p' ps ps'
    have hside : (p.fromClient == b.fromClient) = (p'.fromClient == b'.fromClient) := by
      rw [hpe.1, hbe.1]
    by_cases hcase : (p.fromClient == b.fromClient) = true
    · rw [runSnoc_cons_same done p ps b hcase,
        runSnoc_cons_same done' p' ps' b' (by rw [← hside]; exact hcase)]
      exact ⟨h1, List.rel_append (List.Forall₂.cons hpe htl)
        (List.Forall₂.cons hbe List.Forall₂.nil)⟩
    · have hcase' : (p.fromClient == b.fromClient) = false := by
        revert hcase
        cases p.fromClient == b.fromClient <;> simp
      rw [runSnoc_cons_diff done p ps b hcase',
        runSnoc_cons_diff done' p' ps' b' (by rw [← hside]; exact hcase')]
      exact ⟨List.rel_append h1
        (List.Forall₂.cons (List.Forall₂.cons hpe htl) List.Forall₂.nil),
        List.Forall₂.cons hbe List.Forall₂.nil⟩

theorem foldl_runSnoc_equiv (E E' : List SpecBlock) (h : List.Forall₂ BlockEquiv E E') :
    ∀ (acc acc' : List (List SpecBlock) × List SpecBlock),
      List.Forall₂ (List.Forall₂ BlockEquiv) acc.1 acc'.1 →
      List.Forall₂ BlockEquiv acc.2 acc'.2 →
      List.Forall₂ (List.Forall₂ BlockEquiv) (E.foldl runSnoc acc).1
        (E'.foldl runSnoc acc').1 ∧
        List.Forall₂ BlockEquiv (E.foldl runSnoc acc).2 (E'.foldl runSnoc acc').2 := by
  induction h with
  | nil => intro acc acc' h1 h2; exact ⟨h1, h2⟩
  | cons hbe htail ihm =>
    intro acc acc' h1 h2
    rw [List.foldl_cons, List.foldl_cons]
    have hstep := runSnoc_equiv acc acc' h1 h2 _ _ hbe
    exact ihm _ _ hstep.1 hstep.2

theorem runsOf_equiv (E E' : List SpecBlock) (h : List.Forall₂ BlockEquiv E E') :
    List.Forall₂ (List.Forall₂ BlockEquiv) (runsOf E) (runsOf E') := by
  have hst := foldl_runSnoc_equiv E E' h ([], []) ([], []) List.Forall₂.nil List.Forall₂.nil
  have h1 : List.Forall₂ (List.Forall₂ BlockEquiv) (runsState E).1 (runsState E').1 := hst.1
  have h2 : List.Forall₂ BlockEquiv (runsState E).2 (runsState E').2 := hst.2
  unfold runsOf
  rcases hE : runsState E with ⟨done, pend⟩
  rcases hE' : runsState E' with ⟨done', pend'⟩
  rw [hE] at h1 h2
  rw [hE'] at h1 h2
  cases h2 with
  | nil => exact h1
  | cons hpe htl =>
    exact List.rel_append h1
      (List.Forall₂.cons (List.Forall₂.cons hpe htl) List.Forall₂.nil)

theorem forall₂_flatMap_raw (run run' : List SpecBlock)
    (h : List.Forall₂ BlockEquiv run run') :
    run.flatMap (fun b => b.raw) = run'.flatMap (fun b => b.raw) := by
  induction h with
  | nil => rfl
  | cons hbe htail ihm =>
    simp only [List.flatMap_cons]
    rw [hbe.2.2.2.2.1, ihm]

theorem blockPayload_equiv (decode : String → List Nat → List Nat) (fmt : String)
    (b b' : SpecBlock) (h : BlockEquiv b b') :
    PayloadEquiv (blockPayload decode fmt b) (blockPayload decode fmt b') := by
  obtain ⟨h1, h2, h3, h4, h5, h6, h7, h8⟩ := h
  exact ⟨h1, by show decode fmt b.raw = decode fmt b'.raw; rw [h5], rfl, rfl, h2, h3, h4, h8⟩

theorem setMeta_equiv (m : Metadata) (cont : Bool) (p q : Payload) (h : PayloadEquiv p q) :
    PayloadEquiv (setMeta m cont p) (setMeta m cont q) := by
  obtain ⟨h1, h2, h3, h4, h5, h6, h7, h8⟩ := h
  exact ⟨h1, h2, rfl, rfl, h5, h6, h7, h8⟩

theorem flagPayloads_equiv (m : Metadata) (l l' : List Payload)
    (h : List.Forall₂ PayloadEquiv l l') :
    ∀ (cont : Bool), List.Forall₂ PayloadEquiv (flagPayloads m cont l)
      (flagPayloads m cont l') := by
  induction h with
  | nil => intro cont; exact List.Forall₂.nil
  | cons hpe htail ihm =>
    intro cont
    exact List.Forall₂.cons (setMeta_equiv m cont _ _ hpe) (ihm true)

theorem forall₂_map_blockPayload (decode : String → List Nat → List Nat) (fmt : String)
    (run run' : List SpecBlock) (h : List.Forall₂ BlockEquiv run run') :
    List.Forall₂ PayloadEquiv (run.map (blockPayload decode fmt))
      (run'.map (blockPayload decode fmt)) := by
  induction h with
  | nil => exact List.Forall₂.nil
  | cons hbe htail ihm =>
    exact List.Forall₂.cons (blockPayload_equiv decode fmt _ _ hbe) ihm

theorem flagRun_equiv (parse : List Nat → Metadata) (decode : String → List Nat → List Nat)
    (fmt : String) (run run' : List SpecBlock) (h : List.Forall₂ BlockEquiv run run') :
    List.Forall₂ PayloadEquiv (flagRun parse decode fmt run)
      (flagRun parse decode fmt run') := by
  unfold flagRun
  rw [forall₂_flatMap_raw run run' h]
  exact flagPayloads_equiv _ _ _ (forall₂_map_blockPayload decode fmt run run' h) false

theorem flagged_equiv (parse : List Nat → Metadata) (decode : String → List Nat → List Nat)
    (fmt : String) (R R' : List (List SpecBlock))
    (h : List.Forall₂ (List.Forall₂ BlockEquiv) R R') :
    List.Forall₂ PayloadEquiv (R.flatMap (flagRun parse decode fmt))
      (R'.flatMap (flagRun parse decode fmt)) := by
  induction h with
  | nil => exact List.Forall₂.nil
  | cons hre htail ihm =>
    simp only [List.flatMap_cons]
    exact List.rel_append (flagRun_equiv parse decode fmt _ _ hre) ihm

theorem zipFilter_equiv (skip : Nat) (l1 l1' : List Payload)
    (h1 : List.Forall₂ PayloadEquiv l1 l1') :
    ∀ (l2 l2' : List SpecBlock), List.Forall₂ BlockEquiv l2 l2' →
      List.Forall₂ PayloadEquiv
        (((l1.zip l2).filter (fun pb => decide (skip < pb.2.endIdx))).map Prod.fst)
        (((l1'.zip l2').filter (fun pb => decide (skip < pb.2.endIdx))).map Prod.fst) := by
  induction h1 with
  | nil => intro l2 l2' h2; exact List.Forall₂.nil
  | cons hpe htail ihm =>
    rename_i p p' t t'
    intro l2 l2' h2
    cases h2 with
    | nil => exact List.Forall₂.nil
    | cons hbe htl2 =>
      rename_i bb bb' t2 t2'
      have hend : bb.endIdx = bb'.endIdx := hbe.2.2.2.2.2.2.1
      rw [List.zip_cons_cons, List.zip_cons_cons, List.filter_cons, List.filter_cons]
      by_cases hc : skip < bb.endIdx
      · rw [show decide (skip < (p, bb).2.endIdx) = true from decide_eq_true hc,
          show decide (skip < (p', bb').2.endIdx) = true from
            decide_eq_true (show skip < bb'.endIdx by omega)]
        simp only [if_pos, List.map_cons]
        exact List.Forall₂.cons hpe (ihm t2 t2' htl2)
      · rw [show decide (skip < (p, bb).2.endIdx) = false from decide_eq_false hc,
          show decide (skip < (p', bb').2.endIdx) = false from
            decide_eq_false (show ¬skip < bb'.endIdx by omega)]
        simp only [Bool.false_eq_true, if_false]
        exact ihm t2 t2' htl2

theorem assemble_equiv (parse : List Nat → Metadata) (decode : String → List Nat → List Nat)
    (fmt : String) (skip bound : Nat) (E E' : List SpecBlock)
    (h : List.Forall₂ BlockEquiv E E') :
    List.Forall₂ PayloadEquiv (assemble parse decode fmt skip bound E)
      (assemble parse decode fmt skip bound E') := by
  unfold assemble flagAndPick
  have hcut := cutThrough_equiv bound E E' h
  exact zipFilter_equiv skip _ _
    (flagged_equiv parse decode fmt _ _ (runsOf_equiv _ _ hcut)) _ _ hcut


/-! ## Characterization of `findMatchesBetween` -/

theorem filterMap_guard {α β : Type} (c : α → Bool) (f : α → β) :
    ∀ (l : List α),
      l.filterMap (fun a => if c a then some (f a) else none) = (l.filter c).map f := by
  intro l
  induction l with
  | nil => rfl
  | cons a t ih =>
    cases h : c a with
    | true => simp [List.filterMap_cons, List.filter_cons, h, ih]
    | false => simp [List.filterMap_cons, List.filter_cons, h, ih]

theorem matchSlice_eq (lo hi : Nat) (sl : Nat × Nat) :
    (if lo > sl.2 ∨ hi ≤ sl.1 then (none : Option RegexSlice)
      else some { rFrom := if lo > sl.1 then 0 else sl.1 - lo,
                  rTo := if hi ≤ sl.2 then hi - lo else sl.2 - lo }) =
      (if (decide (lo ≤ sl.2) && decide (sl.1 < hi)) = true then
        some { rFrom := max sl.1 lo - lo, rTo := min sl.2 hi - lo } else none) := by
  by_cases h : lo > sl.2 ∨ hi ≤ sl.1
  · rw [if_pos h, if_neg]
    simp only [Bool.and_eq_true, decide_eq_true_eq, not_and]
    intro h1
    omega
  · have hc : (decide (lo ≤ sl.2) && decide (sl.1 < hi)) = true := by
      simp only [Bool.and_eq_true, decide_eq_true_eq]
      omega
    rw [if_neg h, if_pos hc]
    have e1 : (if lo > sl.1 then 0 else sl.1 - lo) = max sl.1 lo - lo := by
      by_cases hx : lo > sl.1
      · rw [if_pos hx, Nat.max_eq_right (le_of_lt hx)]
        omega
      · rw [if_neg hx, Nat.max_eq_left (by omega)]
    have e2 : (if hi ≤ sl.2 then hi - lo else sl.2 - lo) = min sl.2 hi - lo := by
      by_cases hy : hi ≤ sl.2
      · rw [if_pos hy, Nat.min_eq_right hy]
      · rw [if_neg hy, Nat.min_eq_left (by omega)]
    rw [e1, e2]

/-! ## The claims -/

/-- C1: every output of `GetConnectionPayload` is ordered by the merge
order on (timestamp, side): timestamps are non-decreasing, and for any
pair of payloads with equal timestamps a server payload never precedes
a client payload (client-before-server tie-break); exhaustion of one
side leaves the remaining blocks of the other side in this same order.
This holds under the persisted-data invariants (per-document
well-formedness and per-side non-decreasing concatenated
timestamps). -/
theorem c1_merge_order (cdocs sdocs : List ConnectionStream) (parse : List Nat → Metadata)
    (decode : String → List Nat → List Nat) (format : QueryFormat)
    (hC : SideWF cdocs) (hS : SideWF sdocs) :
    List.Pairwise (fun p q => tsSideLe (payloadTsSide p) (payloadTsSide q))
      (GetConnectionPayload cdocs sdocs parse decode format) := by
  rw [GetConnectionPayload_eq_assemble]
  apply (List.pairwise_map).mp
  apply List.Pairwise.sublist (assemble_tsSide_sublist parse decode format.format format.skip
    ((format.skip + (if format.limit ≤ 0 then DefaultQueryFormatLimit else format.limit)) % U64)
    (mergedBlocks cdocs sdocs))
  exact (List.pairwise_map).mpr (mergedBlocks_pairwise cdocs sdocs hC hS)

theorem c1_merge_order_witness :
    SideWF [(⟨[1, 2], [0, 1], [5, 5], [false, false], []⟩ : ConnectionStream)] ∧
    SideWF [(⟨[3], [0], [5], [false], []⟩ : ConnectionStream)] ∧
    List.Pairwise (fun p q => tsSideLe (payloadTsSide p) (payloadTsSide q))
      (GetConnectionPayload [(⟨[1, 2], [0, 1], [5, 5], [false, false], []⟩ : ConnectionStream)]
        [(⟨[3], [0], [5], [false], []⟩ : ConnectionStream)]
        (fun l => some l) (fun _ l => l) { format := "", skip := 0, limit := 100 }) :=
  ⟨by decide, by decide,
    c1_merge_order [(⟨[1, 2], [0, 1], [5, 5], [false, false], []⟩ : ConnectionStream)]
      [(⟨[3], [0], [5], [false], []⟩ : ConnectionStream)]
      (fun l => some l) (fun _ l => l) { format := "", skip := 0, limit := 100 }
      (by decide) (by decide)⟩

/-- C2 counterexample: with two client documents of one byte-pair and
one byte, every block starts at offset 0 of its own document, so the
output `index` values are `[0, 0]` — not the flow-global offsets
`[0, 2]` the claim asserts, and not strictly increasing. -/
theorem c2_index_not_global :
    (GetConnectionPayload
        [(⟨[1, 2], [0], [0], [false], []⟩ : ConnectionStream),
         (⟨[3], [0], [1], [false], []⟩ : ConnectionStream)] []
        (fun _ => none) (fun _ l => l) { format := "", skip := 0, limit := 100 }).map
      (fun p => p.index) = [0, 0] ∧
    ¬ List.Chain' (· < ·)
      ((GetConnectionPayload
        [(⟨[1, 2], [0], [0], [false], []⟩ : ConnectionStream),
         (⟨[3], [0], [1], [false], []⟩ : ConnectionStream)] []
        (fun _ => none) (fun _ l => l) { format := "", skip := 0, limit := 100 }).map
      (fun p => p.index)) := by decide

/-- C2 (corrected): the `index` of a payload is the block's start
offset within the payload of its OWN document, not within the side's
full stream: per side, the output `index` values are exactly the
documents' `blocks_indexes` arrays concatenated in document order, so
they reset at every document boundary and need not be strictly
increasing across documents.  Stated for `skip = 0` and an ample
`limit`, so that the whole merged sequence is returned. -/
theorem c2_index_document_relative (cdocs sdocs : List ConnectionStream)
    (parse : List Nat → Metadata) (decode : String → List Nat → List Nat) (fmt : String)
    (lim : Nat) (hC : ∀ s ∈ cdocs, StreamWF s) (hS : ∀ s ∈ sdocs, StreamWF s)
    (hpos : 0 < lim) (hlim : totalSizes cdocs + totalSizes sdocs ≤ lim) (hu : lim < U64) :
    ((GetConnectionPayload cdocs sdocs parse decode
        { format := fmt, skip := 0, limit := lim }).filter (fun p => p.fromClient)).map
        (fun p => p.index) = cdocs.flatMap (fun s => s.blocksIndexes) ∧
    ((GetConnectionPayload cdocs sdocs parse decode
        { format := fmt, skip := 0, limit := lim }).filter (fun p => !p.fromClient)).map
        (fun p => p.index) = sdocs.flatMap (fun s => s.blocksIndexes) := by
  rw [GetConnectionPayload_full cdocs sdocs parse decode fmt lim hC hS hpos hlim hu]
  have hdata := flagged_map_payloadData parse decode fmt (mergedBlocks cdocs sdocs)
  have hside := mergedBlocks_side_indexes cdocs sdocs hC hS
  constructor
  · have hmap1 : ((runsOf (mergedBlocks cdocs sdocs)).flatMap
        (flagRun parse decode fmt)).map (fun p => (p.fromClient, p.index)) =
        (mergedBlocks cdocs sdocs).map (fun b => (b.fromClient, b.index)) := by
      have h := congrArg
        (List.map (fun t : Bool × List Nat × Nat × Int × Bool × List RegexSlice =>
          (t.1, t.2.2.1))) hdata
      rw [List.map_map, List.map_map] at h
      exact h
    rw [map2_filter_transfer (fun p => p.fromClient) (fun b => b.fromClient)
      (fun p => p.index) (fun b => b.index) _ _ hmap1]
    exact hside.1
  · have hmap2 : ((runsOf (mergedBlocks cdocs sdocs)).flatMap
        (flagRun parse decode fmt)).map (fun p => (!p.fromClient, p.index)) =
        (mergedBlocks cdocs sdocs).map (fun b => (!b.fromClient, b.index)) := by
      have h := congrArg
        (List.map (fun t : Bool × List Nat × Nat × Int × Bool × List RegexSlice =>
          (!t.1, t.2.2.1))) hdata
      rw [List.map_map, List.map_map] at h
      exact h
    rw [map2_filter_transfer (fun p => !p.fromClient) (fun b => !b.fromClient)
      (fun p => p.index) (fun b => b.index) _ _ hmap2]
    exact hside.2

theorem c2_index_document_relative_witness :
    (∀ s ∈ [(⟨[1, 2], [0], [0], [false], []⟩ : ConnectionStream),
        (⟨[3], [0], [1], [false], []⟩ : ConnectionStream)], StreamWF s) ∧
    (∀ s ∈ ([] : List ConnectionStream), StreamWF s) ∧
    0 < 10 ∧
    totalSizes [(⟨[1, 2], [0], [0], [false], []⟩ : ConnectionStream),
      (⟨[3], [0], [1], [false], []⟩ : ConnectionStream)] + totalSizes [] ≤ 10 ∧
    10 < U64 ∧
    (((GetConnectionPayload [(⟨[1, 2], [0], [0], [false], []⟩ : ConnectionStream),
          (⟨[3], [0], [1], [false], []⟩ : ConnectionStream)] []
          (fun _ => none) (fun _ l => l)
          { format := "", skip := 0, limit := 10 }).filter (fun p => p.fromClient)).map
        (fun p => p.index) =
      ([(⟨[1, 2], [0], [0], [false], []⟩ : ConnectionStream),
        (⟨[3], [0], [1], [false], []⟩ : ConnectionStream)]).flatMap
        (fun s => s.blocksIndexes) ∧
     ((GetConnectionPayload [(⟨[1, 2], [0], [0], [false], []⟩ : ConnectionStream),
          (⟨[3], [0], [1], [false], []⟩ : ConnectionStream)] []
          (fun _ => none) (fun _ l => l)
          { format := "", skip := 0, limit := 10 }).filter (fun p => !p.fromClient)).map
        (fun p => p.index) =
      ([] : List ConnectionStream).flatMap (fun s => s.blocksIndexes)) :=
  ⟨by decide, by decide, by decide, by decide, by decide,
    c2_index_document_relative
      [(⟨[1, 2], [0], [0], [false], []⟩ : ConnectionStream),
       (⟨[3], [0], [1], [false], []⟩ : ConnectionStream)] []
      (fun _ => none) (fun _ l => l) "" 10
      (by decide) (by decide) (by decide) (by decide) (by decide)⟩

/-- C3 counterexample: a pattern slice `[0, 5]` against the block
covering side offsets `[5, 10)` — the match ends exactly at the
block's start offset, so its intersection with the block's half-open
range is empty — is nevertheless included, as the degenerate
block-relative range `{from := 0, to := 0}`. -/
theorem c3_touching_match_included :
    findMatchesBetween [(0, [(0, 5)])] 5 10 = [{ rFrom := 0, rTo := 0 }] := by decide

/-- C3 (corrected): `findMatchesBetween` keeps, for each map entry in
iteration order, exactly the slices `[s1, s2]` with `s2 ≥ from` and
`s1 < to` — the lower comparison is inclusive, so a slice touching the
block start (`s2 = from`) is kept, producing an empty rewritten range —
and rewrites each kept slice to `{max s1 from − from, min s2 to − from}`,
i.e. block-relative offsets clamped to the block. -/
theorem c3_matches_characterization (pm : List (Nat × List (Nat × Nat))) (lo hi : Nat) :
    findMatchesBetween pm lo hi =
      pm.flatMap (fun kv =>
        (kv.2.filter (fun sl => decide (lo ≤ sl.2) && decide (sl.1 < hi))).map
          (fun sl => { rFrom := max sl.1 lo - lo, rTo := min sl.2 hi - lo })) := by
  unfold findMatchesBetween
  refine List.flatMap_congr (fun kv _ => ?_)
  rw [← filterMap_guard]
  refine List.filterMap_congr (fun sl _ => ?_)
  exact matchSlice_eq lo hi sl

/-- C4 counterexample: one client run of two blocks, with the parser
returning the parsed bytes: BOTH payloads of the run carry the parsed
metadata (`some [10, 20]`), refuting the claim that the metadata is
attached to the first payload of the run only. -/
theorem c4_metadata_not_first_only :
    (GetConnectionPayload [(⟨[10, 20], [0, 1], [0, 1], [false, false], []⟩ : ConnectionStream)]
        [] (fun l => some l) (fun _ l => l) { format := "", skip := 0, limit := 100 }).map
      (fun p => (p.metadata, p.isMetadataContinuation)) =
      [(some [10, 20], false), (some [10, 20], true)] := by decide

/-- C4 (corrected): with `skip = 0` and an ample `limit` the reader
returns the payloads of the maximal same-side runs of the merged
sequence in order, and within each run the metadata parsed from the
run's concatenated raw bytes is attached to EVERY payload of the run —
not only the first; the continuation flag is `false` on the first
payload of the run and `true` on every subsequent one. -/
theorem c4_run_metadata (cdocs sdocs : List ConnectionStream) (parse : List Nat → Metadata)
    (decode : String → List Nat → List Nat) (fmt : String) (lim : Nat)
    (hC : ∀ s ∈ cdocs, StreamWF s) (hS : ∀ s ∈ sdocs, StreamWF s)
    (hpos : 0 < lim) (hlim : totalSizes cdocs + totalSizes sdocs ≤ lim) (hu : lim < U64) :
    GetConnectionPayload cdocs sdocs parse decode { format := fmt, skip := 0, limit := lim } =
      (runsOf (mergedBlocks cdocs sdocs)).flatMap (flagRun parse decode fmt) ∧
    ∀ (b : SpecBlock) (rest : List SpecBlock),
      (flagRun parse decode fmt (b :: rest)).map (fun p => p.metadata) =
        List.replicate (rest.length + 1) (parse ((b :: rest).flatMap (fun x => x.raw))) ∧
      (flagRun parse decode fmt (b :: rest)).map (fun p => p.isMetadataContinuation) =
        false :: List.replicate rest.length true := by
  refine ⟨GetConnectionPayload_full cdocs sdocs parse decode fmt lim hC hS hpos hlim hu,
    fun b rest => ⟨?_, flagRun_cont parse decode fmt b rest⟩⟩
  rw [flagRun_meta]
  rfl

theorem c4_run_metadata_witness :
    (∀ s ∈ [(⟨[10, 20], [0, 1], [0, 1], [false, false], []⟩ : ConnectionStream)],
      StreamWF s) ∧
    (∀ s ∈ ([] : List ConnectionStream), StreamWF s) ∧
    0 < 10 ∧
    totalSizes [(⟨[10, 20], [0, 1], [0, 1], [false, false], []⟩ : ConnectionStream)] +
      totalSizes [] ≤ 10 ∧
    10 < U64 ∧
    (GetConnectionPayload [(⟨[10, 20], [0, 1], [0, 1], [false, false], []⟩ : ConnectionStream)]
        [] (fun l => some l) (fun _ l => l) { format := "", skip := 0, limit := 10 } =
      (runsOf (mergedBlocks
        [(⟨[10, 20], [0, 1], [0, 1], [false, false], []⟩ : ConnectionStream)] [])).flatMap
        (flagRun (fun l => some l) (fun _ l => l) "") ∧
     ∀ (b : SpecBlock) (rest : List SpecBlock),
      (flagRun (fun l => some l) (fun _ l => l) "" (b :: rest)).map (fun p => p.metadata) =
        List.replicate (rest.length + 1)
          (some ((b :: rest).flatMap (fun x => x.raw))) ∧
      (flagRun (fun l => some l) (fun _ l => l) "" (b :: rest)).map
          (fun p => p.isMetadataContinuation) =
        false :: List.replicate rest.length true) :=
  ⟨by decide, by decide, by decide, by decide, by decide,
    c4_run_metadata [(⟨[10, 20], [0, 1], [0, 1], [false, false], []⟩ : ConnectionStream)] []
      (fun l => some l) (fun _ l => l) "" 10
      (by decide) (by decide) (by decide) (by decide) (by decide)⟩

/-- C5: pagination.  For a positive limit (and no `uint64` wraparound
of `skip + limit`), the output payloads carry exactly the data of
`emitWindow skip (skip + limit)` over the merged block sequence: every
block whose running end offset is at or before `skip` is omitted,
every later block is emitted, and emission stops with the first block
whose end offset exceeds `skip + limit`, that block included. -/
theorem c5_pagination_window (cdocs sdocs : List ConnectionStream)
    (parse : List Nat → Metadata) (decode : String → List Nat → List Nat)
    (format : QueryFormat) (hpos : 0 < format.limit)
    (hov : format.skip + format.limit < U64) :
    (GetConnectionPayload cdocs sdocs parse decode format).map payloadData =
      (emitWindow format.skip (format.skip + format.limit)
        (mergedBlocks cdocs sdocs)).map (blockData decode format.format) := by
  rw [GetConnectionPayload_eq_assemble]
  rw [show (if format.limit ≤ 0 then DefaultQueryFormatLimit else format.limit) =
    format.limit from if_neg (by omega)]
  rw [Nat.mod_eq_of_lt hov]
  unfold assemble
  rw [emitWindow_eq_filter]
  exact zipFilter_map_eq (fun b => decide (format.skip < b.endIdx)) payloadData
    (blockData decode format.format) _ _
    (flagged_map_payloadData parse decode format.format _)

theorem c5_pagination_window_witness :
    0 < (2 : Nat) ∧ 1 + 2 < U64 ∧
    (GetConnectionPayload
        [(⟨[1, 2, 3], [0, 1, 2], [0, 1, 2], [false, false, false], []⟩ : ConnectionStream)]
        [] (fun l => some l) (fun _ l => l)
        { format := "", skip := 1, limit := 2 }).map payloadData =
      (emitWindow 1 (1 + 2) (mergedBlocks
        [(⟨[1, 2, 3], [0, 1, 2], [0, 1, 2], [false, false, false], []⟩ : ConnectionStream)]
        [])).map (blockData (fun _ l => l) "") :=
  ⟨by decide, by decide,
    c5_pagination_window
      [(⟨[1, 2, 3], [0, 1, 2], [0, 1, 2], [false, false, false], []⟩ : ConnectionStream)] []
      (fun l => some l) (fun _ l => l) { format := "", skip := 1, limit := 2 }
      (by decide) (by decide)⟩

/-- C6: a query whose `limit` is zero (the zero value of the unsigned
field, covering "unspecified") behaves exactly as `limit = 8024`
(`DefaultQueryFormatLimit`), and a positive supplied limit is used
unchanged in the pagination bound `skip + limit`. -/
theorem c6_default_limit (cdocs sdocs : List ConnectionStream) (parse : List Nat → Metadata)
    (decode : String → List Nat → List Nat) (fmt : String) (skip : Nat) :
    GetConnectionPayload cdocs sdocs parse decode
        { format := fmt, skip := skip, limit := 0 } =
      GetConnectionPayload cdocs sdocs parse decode
        { format := fmt, skip := skip, limit := DefaultQueryFormatLimit } ∧
    ∀ lim : Nat, 0 < lim →
      GetConnectionPayload cdocs sdocs parse decode
          { format := fmt, skip := skip, limit := lim } =
        assemble parse decode fmt skip ((skip + lim) % U64) (mergedBlocks cdocs sdocs) := by
  constructor
  · rfl
  · intro lim hlim
    rw [GetConnectionPayload_eq_assemble]
    show assemble parse decode fmt skip
      ((skip + (if lim ≤ 0 then DefaultQueryFormatLimit else lim)) % U64)
      (mergedBlocks cdocs sdocs) = _
    rw [if_neg (show ¬lim ≤ 0 by omega)]

theorem c6_default_limit_witness :
    (GetConnectionPayload [(⟨[7], [0], [0], [false], []⟩ : ConnectionStream)] []
        (fun l => some l) (fun _ l => l) { format := "", skip := 0, limit := 0 } =
      GetConnectionPayload [(⟨[7], [0], [0], [false], []⟩ : ConnectionStream)] []
        (fun l => some l) (fun _ l => l)
        { format := "", skip := 0, limit := DefaultQueryFormatLimit }) ∧
    0 < 5 ∧
    (GetConnectionPayload [(⟨[7], [0], [0], [false], []⟩ : ConnectionStream)] []
        (fun l => some l) (fun _ l => l) { format := "", skip := 0, limit := 5 } =
      assemble (fun l => some l) (fun _ l => l) "" 0 ((0 + 5) % U64)
        (mergedBlocks [(⟨[7], [0], [0], [false], []⟩ : ConnectionStream)] [])) :=
  ⟨(c6_default_limit [(⟨[7], [0], [0], [false], []⟩ : ConnectionStream)] []
      (fun l => some l) (fun _ l => l) "" 0).1,
   by decide,
   (c6_default_limit [(⟨[7], [0], [0], [false], []⟩ : ConnectionStream)] []
      (fun l => some l) (fun _ l => l) "" 0).2 5 (by decide)⟩

/-- C7 counterexample: the same persisted data with the two possible
iteration orders of a two-entry `pattern_matches` map gives two
DIFFERENT outputs — the `regex_matches` list of the single payload
comes out in the two different orders — so the two-run identity
claimed by the specification fails when the map iteration order
changes between runs. -/
theorem c7_map_order_changes_output :
    GetConnectionPayload
        [(⟨[1, 2], [0], [0], [false], [(0, [(0, 0)]), (1, [(1, 1)])]⟩ : ConnectionStream)]
        [] (fun _ => none) (fun _ l => l) { format := "", skip := 0, limit := 100 } ≠
      GetConnectionPayload
        [(⟨[1, 2], [0], [0], [false], [(1, [(1, 1)]), (0, [(0, 0)])]⟩ : ConnectionStream)]
        [] (fun _ => none) (fun _ l => l) { format := "", skip := 0, limit := 100 } := by
  decide

/-- C7 (corrected): determinism up to regex-match order.  Two runs of
`GetConnectionPayload` over equal persisted documents whose
`pattern_matches` maps are iterated in possibly different orders, with
the same query, produce outputs of the same length that agree payload
by payload on every field, except that the `regex_matches` list may be
an arbitrary permutation; in particular the merge order, contents,
indexes, timestamps and metadata are identical. -/
theorem c7_determinism_up_to_regex_order (cdocs cdocs' sdocs sdocs' : List ConnectionStream)
    (parse : List Nat → Metadata) (decode : String → List Nat → List Nat)
    (format : QueryFormat) (hc : List.Forall₂ StreamEquiv cdocs cdocs')
    (hs : List.Forall₂ StreamEquiv sdocs sdocs') :
    List.Forall₂ PayloadEquiv (GetConnectionPayload cdocs sdocs parse decode format)
      (GetConnectionPayload cdocs' sdocs' parse decode format) := by
  rw [GetConnectionPayload_eq_assemble, GetConnectionPayload_eq_assemble]
  exact assemble_equiv parse decode format.format format.skip _ _ _
    (mergedBlocks_equiv cdocs cdocs' sdocs sdocs' hc hs)

theorem c7_determinism_up_to_regex_order_witness :
    List.Forall₂ StreamEquiv
      [(⟨[1, 2], [0], [0], [false], [(0, [(0, 0)]), (1, [(1, 1)])]⟩ : ConnectionStream)]
      [(⟨[1, 2], [0], [0], [false], [(1, [(1, 1)]), (0, [(0, 0)])]⟩ : ConnectionStream)] ∧
    List.Forall₂ PayloadEquiv
      (GetConnectionPayload
        [(⟨[1, 2], [0], [0], [false], [(0, [(0, 0)]), (1, [(1, 1)])]⟩ : ConnectionStream)]
        [] (fun _ => none) (fun _ l => l) { format := "", skip := 0, limit := 100 })
      (GetConnectionPayload
        [(⟨[1, 2], [0], [0], [false], [(1, [(1, 1)]), (0, [(0, 0)])]⟩ : ConnectionStream)]
        [] (fun _ => none) (fun _ l => l) { format := "", skip := 0, limit := 100 }) :=
  ⟨List.Forall₂.cons (by decide) List.Forall₂.nil,
    c7_determinism_up_to_regex_order
      [(⟨[1, 2], [0], [0], [false], [(0, [(0, 0)]), (1, [(1, 1)])]⟩ : ConnectionStream)]
      [(⟨[1, 2], [0], [0], [false], [(1, [(1, 1)]), (0, [(0, 0)])]⟩ : ConnectionStream)]
      [] [] (fun _ => none) (fun _ l => l) { format := "", skip := 0, limit := 100 }
      (List.Forall₂.cons (by decide) List.Forall₂.nil) List.Forall₂.nil⟩

/-- C8: the port validator of the source accepts 65565 — its upper
comparison is `<= 65565`, a typo for the specified bound 65535 — so
ports 65536..65565 are wrongly accepted; 65566 is rejected, showing
the actual bound implemented. -/
theorem c8_port_bound_bug :
    isValidPort ("65565") true = true ∧ isValidPort ("65540") true = true ∧
      isValidPort ("65566") true = false := by decide

/-- C9: the address validator of the source is the stub
`(address) => true`: it accepts the non-parseable string "not-an-ip",
and `validateSettings` consequently reports no error for a
configuration whose `server_address` is not an IP address (with a
`flag_regex` of length at least 8), contradicting the specified
validation rule. -/
theorem c9_address_validator_stub :
    isValidAddress ("not-an-ip") = true ∧
      validateSettings { server_address := "not-an-ip", flag_regex := "flagABCD1234" } =
        true := by decide

set_option maxRecDepth 20000 in
/-- C10: after a `from`-paginated load that pushes the list over the
500 cap, the source trims with `slice(length - 500, length - 1)`,
whose exclusive end drops the just-appended final element, while
`lastConnection` still points at that dropped element: starting from
500 rows `0..499` and appending row `500`, the resulting list has 499
elements ending at `499`, but `lastConnection` is `500`, so
`lastConnection` is not the last element of `connections` and the
claimed invariant fails. -/
theorem c10_from_trim_drops_last :
    (loadConnections ⟨List.range 500, some 0, some 499⟩ ⟨some 499, none⟩ [500]).connections.length
        = 499 ∧
    (loadConnections ⟨List.range 500, some 0, some 499⟩ ⟨some 499, none⟩ [500]).lastConnection
        = some 500 ∧
    (loadConnections ⟨List.range 500, some 0, some 499⟩ ⟨some 499, none⟩
        [500]).connections.getLast? = some 499 := by decide

end Caronte
